import Mathlib

/-!
Verification of the payload-normalization and form-state layer of the
accident-notification frontend (`frontend/src/App.js`).

The form state, the prefilled scan data and the submitted payload are JSON
values (the state is produced by React state updates and serialized with
`JSON.stringify`), so the data model is a JSON tree.  JavaScript numbers are
modelled as integers: every numeric literal that the form layer produces or
consumes is integral, and none of the verified code performs arithmetic.
A JavaScript exception (member access on `null`) is modelled with `Except`,
and JavaScript's `undefined` — which can only appear here as the result of a
failed property lookup or of `removeEmptyValues` — is modelled with `Option`.
-/

inductive Json where
  | null : Json
  | bool : Bool → Json
  | num  : Int → Json
  | str  : String → Json
  | arr  : List Json → Json
  | obj  : List (String × Json) → Json
  deriving Repr

namespace Json

mutual

/-- Structural equality test (the derive handler does not support this
nested inductive, so it is spelled out). -/
def jeq : Json → Json → Bool
  | .null, .null => true
  | .bool a, .bool b => a = b
  | .num a, .num b => a = b
  | .str a, .str b => a = b
  | .arr a, .arr b => jeqList a b
  | .obj a, .obj b => jeqFields a b
  | _, _ => false

def jeqList : List Json → List Json → Bool
  | [], [] => true
  | a :: as, b :: bs => jeq a b && jeqList as bs
  | _, _ => false

def jeqFields : List (String × Json) → List (String × Json) → Bool
  | [], [] => true
  | (j, a) :: as, (k, b) :: bs => j = k && (jeq a b && jeqFields as bs)
  | _, _ => false

end

mutual

theorem jeq_iff : ∀ a b : Json, jeq a b = true ↔ a = b
  | .null, b => by cases b <;> simp [jeq]
  | .bool _, b => by cases b <;> simp [jeq]
  | .num _, b => by cases b <;> simp [jeq]
  | .str _, b => by cases b <;> simp [jeq]
  | .arr a, b => by
      cases b <;> simp [jeq]
      exact jeqList_iff a _
  | .obj a, b => by
      cases b <;> simp [jeq]
      exact jeqFields_iff a _

theorem jeqList_iff : ∀ a b : List Json, jeqList a b = true ↔ a = b
  | [], b => by cases b <;> simp [jeqList]
  | x :: xs, b => by
      cases b with
      | nil => simp [jeqList]
      | cons y ys => simp [jeqList, jeq_iff x y, jeqList_iff xs ys]

theorem jeqFields_iff : ∀ a b : List (String × Json), jeqFields a b = true ↔ a = b
  | [], b => by cases b <;> simp [jeqFields]
  | (j, x) :: xs, b => by
      cases b with
      | nil => simp [jeqFields]
      | cons p ys =>
          obtain ⟨k, y⟩ := p
          simp [jeqFields, jeq_iff x y, jeqFields_iff xs ys]
          tauto

end

instance : DecidableEq Json := fun a b => decidable_of_iff _ (jeq_iff a b)

instance {ε α : Type} [DecidableEq ε] [DecidableEq α] : DecidableEq (Except ε α) := fun a b =>
  match a, b with
  | .error e, .error f =>
      if h : e = f then .isTrue (by rw [h]) else .isFalse (by intro hc; cases hc; exact h rfl)
  | .ok x, .ok y =>
      if h : x = y then .isTrue (by rw [h]) else .isFalse (by intro hc; cases hc; exact h rfl)
  | .error _, .ok _ => .isFalse (by intro hc; cases hc)
  | .ok _, .error _ => .isFalse (by intro hc; cases hc)

/-- JavaScript truthiness of a JSON value (`NaN` cannot occur: JSON has no
`NaN` literal and the modelled code does no arithmetic). -/
def truthy : Json → Bool
  | .null => false
  | .bool b => b
  | .num n => n != 0
  | .str s => s != ""
  | .arr _ => true
  | .obj _ => true

/-- Truthiness of a possibly-`undefined` value (`none` = `undefined`). -/
def truthyOpt : Option Json → Bool
  | none => false
  | some v => truthy v

/-- Property lookup in an object's field list (first match; JavaScript
objects cannot repeat a key, so the first match is the only one). -/
def getKey : List (String × Json) → String → Option Json
  | [], _ => none
  | (k, v) :: kvs, key => if k = key then some v else getKey kvs key

/-- Property assignment `o[key] = v`: replace the existing entry in place,
or append a new one, as JavaScript does. -/
def setKey : List (String × Json) → String → Json → List (String × Json)
  | [], key, v => [(key, v)]
  | (k, w) :: kvs, key, v =>
      if k = key then (key, v) :: kvs else (k, w) :: setKey kvs key v

/-- `delete o[key]`: drop the entry (the first match, which under
JavaScript's unique-key discipline is the only one). -/
def delKey : List (String × Json) → String → List (String × Json)
  | [], _ => []
  | (k, v) :: kvs, key => if k = key then kvs else (k, v) :: delKey kvs key

/-- Property access `v.key` on a value already known not to be `null` or
`undefined`: objects look the key up, every other value yields `undefined`
(the form code never reads a built-in property such as `length`). -/
def member : Json → String → Option Json
  | .obj kvs, key => getKey kvs key
  | _, _ => none

end Json

/-!
## `removeEmptyValues` (App.js 675–696)

The helper declared inside `buildPayload`:

* `null`/`undefined` → `undefined`;
* a non-object is kept unless it is the empty string (note: the comparison
  is `obj === ''`, so a whitespace-only string is kept);
* an array keeps the cleaned elements and becomes `undefined` when none
  survive;
* an object keeps the cleaned entries and becomes `undefined` when none
  survive.

`none` models the JavaScript `undefined` result.
-/

mutual

def removeEmptyValues : Json → Option Json
  | .null => none
  | .bool b => some (.bool b)
  | .num n => some (.num n)
  | .str s => if s = "" then none else some (.str s)
  | .arr xs =>
      match cleanList xs with
      | [] => none
      | y :: ys => some (.arr (y :: ys))
  | .obj kvs =>
      match cleanFields kvs with
      | [] => none
      | f :: fs => some (.obj (f :: fs))

def cleanList : List Json → List Json
  | [] => []
  | x :: xs =>
      match removeEmptyValues x with
      | some y => y :: cleanList xs
      | none => cleanList xs

def cleanFields : List (String × Json) → List (String × Json)
  | [] => []
  | (k, v) :: kvs =>
      match removeEmptyValues v with
      | some w => (k, w) :: cleanFields kvs
      | none => cleanFields kvs

end

example : removeEmptyValues (.obj [("a", .str ""), ("b", .obj [("c", .null)])]) = none := by
  decide

example : removeEmptyValues (.obj [("a", .str " ")]) = some (.obj [("a", .str " ")]) := by
  decide

/-!
## Cleanliness

`isClean v` says that `v` contains no value `removeEmptyValues` removes:
no `null`, no empty string, no empty array and no empty object anywhere.
A whitespace-only string is clean, because the code compares with `''`.
-/

mutual

def isClean : Json → Bool
  | .null => false
  | .bool _ => true
  | .num _ => true
  | .str s => s != ""
  | .arr [] => false
  | .arr (x :: xs) => isCleanList (x :: xs)
  | .obj [] => false
  | .obj (f :: fs) => isCleanFields (f :: fs)

def isCleanList : List Json → Bool
  | [] => true
  | x :: xs => isClean x && isCleanList xs

def isCleanFields : List (String × Json) → Bool
  | [] => true
  | (_, v) :: kvs => isClean v && isCleanFields kvs

end

mutual

/-- Whatever `removeEmptyValues` returns is clean. -/
theorem isClean_removeEmptyValues : ∀ x y : Json, removeEmptyValues x = some y → isClean y = true
  | .null, y => by simp [removeEmptyValues]
  | .bool b, y => by
      simp only [removeEmptyValues, Option.some_inj]
      rintro rfl
      rfl
  | .num n, y => by
      simp only [removeEmptyValues, Option.some_inj]
      rintro rfl
      rfl
  | .str s, y => by
      by_cases h : s = "" <;> simp [removeEmptyValues, h]
      rintro rfl
      simpa [isClean] using h
  | .arr xs, y => by
      simp only [removeEmptyValues]
      cases hc : cleanList xs with
      | nil => simp
      | cons z zs =>
          simp only [Option.some_inj]
          rintro rfl
          have := isCleanList_cleanList xs
          rw [hc] at this
          simpa [isClean] using this
  | .obj kvs, y => by
      simp only [removeEmptyValues]
      cases hc : cleanFields kvs with
      | nil => simp
      | cons f fs =>
          simp only [Option.some_inj]
          rintro rfl
          have := isCleanFields_cleanFields kvs
          rw [hc] at this
          simpa [isClean] using this

theorem isCleanList_cleanList : ∀ xs : List Json, isCleanList (cleanList xs) = true
  | [] => rfl
  | x :: xs => by
      simp only [cleanList]
      cases hx : removeEmptyValues x with
      | none => exact isCleanList_cleanList xs
      | some y =>
          simp only [isCleanList, Bool.and_eq_true]
          exact ⟨isClean_removeEmptyValues x y hx, isCleanList_cleanList xs⟩

theorem isCleanFields_cleanFields :
    ∀ kvs : List (String × Json), isCleanFields (cleanFields kvs) = true
  | [] => rfl
  | (k, v) :: kvs => by
      simp only [cleanFields]
      cases hv : removeEmptyValues v with
      | none => exact isCleanFields_cleanFields kvs
      | some w =>
          simp only [isCleanFields, Bool.and_eq_true]
          exact ⟨isClean_removeEmptyValues v w hv, isCleanFields_cleanFields kvs⟩

end

mutual

/-- `removeEmptyValues` does not touch a clean value. -/
theorem removeEmptyValues_of_isClean : ∀ y : Json, isClean y = true → removeEmptyValues y = some y
  | .null, h => by simp [isClean] at h
  | .bool b, _ => rfl
  | .num n, _ => rfl
  | .str s, h => by
      simp only [isClean, bne_iff_ne, ne_eq] at h
      simp [removeEmptyValues, h]
  | .arr [], h => by simp [isClean] at h
  | .arr (x :: xs), h => by
      simp only [isClean] at h
      rw [removeEmptyValues, cleanList_of_isCleanList (x :: xs) h]
  | .obj [], h => by simp [isClean] at h
  | .obj (f :: fs), h => by
      simp only [isClean] at h
      rw [removeEmptyValues, cleanFields_of_isCleanFields (f :: fs) h]

theorem cleanList_of_isCleanList : ∀ xs : List Json, isCleanList xs = true → cleanList xs = xs
  | [], _ => rfl
  | x :: xs, h => by
      simp only [isCleanList, Bool.and_eq_true] at h
      rw [cleanList, removeEmptyValues_of_isClean x h.1, cleanList_of_isCleanList xs h.2]

theorem cleanFields_of_isCleanFields :
    ∀ kvs : List (String × Json), isCleanFields kvs = true → cleanFields kvs = kvs
  | [], _ => rfl
  | (k, v) :: kvs, h => by
      simp only [isCleanFields, Bool.and_eq_true] at h
      rw [cleanFields, removeEmptyValues_of_isClean v h.1, cleanFields_of_isCleanFields kvs h.2]

end

/-- Normalized output is a fixed point of `removeEmptyValues`. -/
theorem removeEmptyValues_idem {x y : Json} (h : removeEmptyValues x = some y) :
    removeEmptyValues y = some y :=
  removeEmptyValues_of_isClean y (isClean_removeEmptyValues x y h)

/-!
## The deep copy (App.js 672)

`buildPayload` starts with `JSON.parse(JSON.stringify(data))`.  On a JSON
value (no `undefined`, functions or cycles — React form state serialized
by the submit handler is such a value) the round trip rebuilds the same
tree, so it is modelled as a structural copy.
-/

mutual

def deepCopy : Json → Json
  | .null => .null
  | .bool b => .bool b
  | .num n => .num n
  | .str s => .str s
  | .arr xs => .arr (copyList xs)
  | .obj kvs => .obj (copyFields kvs)

def copyList : List Json → List Json
  | [] => []
  | x :: xs => deepCopy x :: copyList xs

def copyFields : List (String × Json) → List (String × Json)
  | [] => []
  | (k, v) :: kvs => (k, deepCopy v) :: copyFields kvs

end

mutual

theorem deepCopy_eq : ∀ x : Json, deepCopy x = x
  | .null => rfl
  | .bool _ => rfl
  | .num _ => rfl
  | .str _ => rfl
  | .arr xs => by rw [deepCopy, copyList_eq]
  | .obj kvs => by rw [deepCopy, copyFields_eq]

theorem copyList_eq : ∀ xs : List Json, copyList xs = xs
  | [] => rfl
  | x :: xs => by rw [copyList, deepCopy_eq, copyList_eq]

theorem copyFields_eq : ∀ kvs : List (String × Json), copyFields kvs = kvs
  | [] => rfl
  | (k, v) :: kvs => by rw [copyFields, deepCopy_eq, copyFields_eq]

end

/-!
## The three document-specific rules of `buildPayload` (App.js 698–728)

Each rule is a statement sequence mutating `payload`; the model renders it
as a function from the payload value to the next payload value.  A member
access on `null` throws a `TypeError`, which `Except Unit` records; access
on any other primitive yields `undefined` and the rule falls through.
-/

namespace Json

/-- App.js 700–709.  `payload.daneOsobyKtoraZawiadamia?.jestPoszkodowanym`:
when truthy, the notifier object is replaced by the bare flag and the three
notifier-address blocks are deleted. -/
def collapseNotifierStep (p : Json) : Except Unit Json :=
  match p with
  | .null => .error ()
  | .obj kvs =>
      let flag : Option Json :=
        match getKey kvs "daneOsobyKtoraZawiadamia" with
        | none => none
        | some .null => none
        | some v => member v "jestPoszkodowanym"
      if truthyOpt flag then
        .ok (.obj
          (delKey
            (delKey
              (delKey
                (setKey kvs "daneOsobyKtoraZawiadamia"
                  (.obj [("jestPoszkodowanym", .bool true)]))
                "adresZamieszkaniaOsobyKtoraZawiadamia")
              "adresOstatniegoMiejscaZamieszkaniaWPolsceLubPobytuOsobyKtoraZawiadamia")
            "adresDoKorespondencjiOsobyKtoraZawiadamia"))
      else .ok p
  | _ => .ok p

/-- App.js 714.  The filter predicate `swiadek.imie && swiadek.nazwisko`;
member access on a `null` array entry throws. -/
def witnessKept (w : Json) : Except Unit Bool :=
  match w with
  | .null => .error ()
  | .obj kvs => .ok (truthyOpt (getKey kvs "imie") && truthyOpt (getKey kvs "nazwisko"))
  | _ => .ok false

/-- `Array.prototype.filter` with the witness predicate. -/
def filterWitnesses : List Json → Except Unit (List Json)
  | [] => .ok []
  | w :: ws => do
      let keep ← witnessKept w
      let rest ← filterWitnesses ws
      pure (if keep then w :: rest else rest)

/-- App.js 712–719.  When `payload.daneSwiadkowWypadku` is an array, keep
only witnesses with truthy names and delete the key if none remain. -/
def filterWitnessesStep (p : Json) : Except Unit Json :=
  match p with
  | .null => .error ()
  | .obj kvs =>
      match getKey kvs "daneSwiadkowWypadku" with
      | some (.arr ws) => do
          let kept ← filterWitnesses ws
          match kept with
          | [] => pure (.obj (delKey kvs "daneSwiadkowWypadku"))
          | w :: rest => pure (.obj (setKey kvs "daneSwiadkowWypadku" (.arr (w :: rest))))
      | _ => .ok p
  | _ => .ok p

/-- App.js 722–728.  Delete `daneOsobyPoszkodowanej.dokumentTozsamosci`
when it is truthy and both `rodzaj` and `seriaINumer` are falsy. -/
def dropIdentityDocStep (p : Json) : Except Unit Json :=
  match p with
  | .null => .error ()
  | .obj kvs =>
      match getKey kvs "daneOsobyPoszkodowanej" with
      | some (.obj dkvs) =>
          match getKey dkvs "dokumentTozsamosci" with
          | some doc =>
              if truthy doc
                  && !truthyOpt (member doc "rodzaj")
                  && !truthyOpt (member doc "seriaINumer") then
                .ok (.obj (setKey kvs "daneOsobyPoszkodowanej"
                  (.obj (delKey dkvs "dokumentTozsamosci"))))
              else .ok p
          | none => .ok p
      | _ => .ok p
  | _ => .ok p

end Json

open Json in
/-- The rewriting pipeline of `buildPayload` after the deep copy. -/
def normalizeSteps (p : Json) : Except Unit (Option Json) := do
  let p1 ← collapseNotifierStep p
  let p2 ← filterWitnessesStep p1
  let p3 ← dropIdentityDocStep p2
  pure (removeEmptyValues p3)

/-- App.js 670–735: deep-copy the form state, apply the three rules, then
strip empty values.  The `Option` in the result is `cleanedPayload`, which
is `undefined` when everything was removed. -/
def buildPayload (data : Json) : Except Unit (Option Json) :=
  normalizeSteps (deepCopy data)

theorem buildPayload_eq_normalizeSteps (data : Json) :
    buildPayload data = normalizeSteps data := by
  rw [buildPayload, deepCopy_eq]

theorem normalizeSteps_ok {p : Json} {r : Option Json} (h : normalizeSteps p = .ok r) :
    ∃ p1 p2 p3, Json.collapseNotifierStep p = .ok p1 ∧ Json.filterWitnessesStep p1 = .ok p2 ∧
      Json.dropIdentityDocStep p2 = .ok p3 ∧ removeEmptyValues p3 = r := by
  cases h1 : Json.collapseNotifierStep p with
  | error e => simp [normalizeSteps, h1, Bind.bind, Except.bind] at h
  | ok p1 =>
      cases h2 : Json.filterWitnessesStep p1 with
      | error e => simp [normalizeSteps, h1, h2, Bind.bind, Except.bind] at h
      | ok p2 =>
          cases h3 : Json.dropIdentityDocStep p2 with
          | error e => simp [normalizeSteps, h1, h2, h3, Bind.bind, Except.bind] at h
          | ok p3 =>
              refine ⟨p1, p2, p3, rfl, h2, h3, ?_⟩
              simpa [normalizeSteps, h1, h2, h3, Bind.bind, Except.bind, pure,
                Except.pure] using h

theorem normalizeSteps_mk {p p1 p2 p3 : Json}
    (h1 : Json.collapseNotifierStep p = .ok p1) (h2 : Json.filterWitnessesStep p1 = .ok p2)
    (h3 : Json.dropIdentityDocStep p2 = .ok p3) :
    normalizeSteps p = .ok (removeEmptyValues p3) := by
  simp [normalizeSteps, h1, h2, h3, Bind.bind, Except.bind, pure, Except.pure]

/-! ## Lemmas about the field-list operations -/

namespace Json

theorem mem_keys_iff_getKey {l : List (String × Json)} {k : String} :
    k ∈ l.map Prod.fst ↔ (getKey l k).isSome := by
  induction l with
  | nil => simp [getKey]
  | cons p l ih =>
      obtain ⟨k₀, w⟩ := p
      by_cases h0 : k₀ = k
      · simp [getKey, h0]
      · simp [getKey, h0, ih, Ne.symm h0]

theorem getKey_setKey_self (l : List (String × Json)) (k : String) (v : Json) :
    getKey (setKey l k v) k = some v := by
  induction l with
  | nil => simp [setKey, getKey]
  | cons p l ih =>
      obtain ⟨k', w⟩ := p
      by_cases h : k' = k <;> simp [setKey, getKey, h, ih]

theorem getKey_setKey_ne (l : List (String × Json)) {k k' : String} (v : Json)
    (h : k' ≠ k) : getKey (setKey l k v) k' = getKey l k' := by
  induction l with
  | nil => simp [setKey, getKey, Ne.symm h]
  | cons p l ih =>
      obtain ⟨k₀, w⟩ := p
      by_cases h0 : k₀ = k
      · subst h0
        simp [setKey, getKey, Ne.symm h]
      · by_cases h1 : k₀ = k' <;> simp [setKey, getKey, h0, h1, h, ih]

theorem getKey_delKey_ne (l : List (String × Json)) {k k' : String}
    (h : k' ≠ k) : getKey (delKey l k) k' = getKey l k' := by
  induction l with
  | nil => simp [delKey]
  | cons p l ih =>
      obtain ⟨k₀, w⟩ := p
      by_cases h0 : k₀ = k
      · subst h0
        simp [delKey, getKey, Ne.symm h]
      · by_cases h1 : k₀ = k' <;> simp [delKey, getKey, h0, h1, h, ih]

theorem delKey_of_getKey_none (l : List (String × Json)) (k : String)
    (h : getKey l k = none) : delKey l k = l := by
  induction l with
  | nil => simp [delKey]
  | cons p l ih =>
      obtain ⟨k₀, w⟩ := p
      by_cases h0 : k₀ = k
      · simp [getKey, h0] at h
      · simp [getKey, h0] at h
        simp [delKey, h0, ih h]

theorem setKey_of_getKey_self (l : List (String × Json)) (k : String) (v : Json)
    (h : getKey l k = some v) : setKey l k v = l := by
  induction l with
  | nil => simp [getKey] at h
  | cons p l ih =>
      obtain ⟨k₀, w⟩ := p
      by_cases h0 : k₀ = k
      · subst h0
        simp [getKey] at h
        simp [setKey, h]
      · simp [getKey, h0] at h
        simp [setKey, h0, ih h]

theorem keys_setKey (l : List (String × Json)) (k : String) (v : Json) :
    (setKey l k v).map Prod.fst =
      if (getKey l k).isSome then l.map Prod.fst else l.map Prod.fst ++ [k] := by
  induction l with
  | nil => simp [setKey, getKey]
  | cons p l ih =>
      obtain ⟨k₀, w⟩ := p
      by_cases h0 : k₀ = k
      · simp [setKey, getKey, h0]
      · simp only [setKey, if_neg h0, List.map_cons, getKey, ih]
        split <;> simp

theorem keys_delKey_sublist (l : List (String × Json)) (k : String) :
    List.Sublist ((delKey l k).map Prod.fst) (l.map Prod.fst) := by
  induction l with
  | nil => simp [delKey]
  | cons p l ih =>
      obtain ⟨k₀, w⟩ := p
      by_cases h0 : k₀ = k
      · simp only [delKey, h0, if_true, eq_self_iff_true]
        exact List.sublist_cons_self _ _
      · simpa [delKey, h0] using List.Sublist.cons₂ k₀ ih

theorem nodup_setKey (l : List (String × Json)) (k : String) (v : Json)
    (h : (l.map Prod.fst).Nodup) : ((setKey l k v).map Prod.fst).Nodup := by
  rw [keys_setKey]
  split
  · exact h
  · next hget =>
      have hk : k ∉ l.map Prod.fst := by
        intro hmem
        exact hget (mem_keys_iff_getKey.mp hmem)
      rw [List.nodup_append]
      exact ⟨h, List.nodup_singleton _, fun x hx hmem => by
        simp only [List.mem_singleton] at hmem
        exact hk (hmem ▸ hx)⟩

theorem nodup_delKey (l : List (String × Json)) (k : String)
    (h : (l.map Prod.fst).Nodup) : ((delKey l k).map Prod.fst).Nodup :=
  h.sublist (keys_delKey_sublist l k)

theorem getKey_delKey_self_of_nodup (l : List (String × Json)) (k : String)
    (h : (l.map Prod.fst).Nodup) : getKey (delKey l k) k = none := by
  induction l with
  | nil => simp [delKey, getKey]
  | cons p l ih =>
      obtain ⟨k₀, w⟩ := p
      simp only [List.map_cons, List.nodup_cons] at h
      by_cases h0 : k₀ = k
      · subst h0
        simp only [delKey, if_true, eq_self_iff_true]
        cases hg : getKey l k₀ with
        | none => rfl
        | some v => exact absurd (mem_keys_iff_getKey.mpr (by simp [hg])) h.1
      · simp [delKey, h0, getKey, ih h.2]

end Json

/-! ## How `removeEmptyValues` acts on one object entry -/

namespace Json

theorem getKey_cleanFields_none {kvs : List (String × Json)} {k : String}
    (h : getKey kvs k = none) : getKey (cleanFields kvs) k = none := by
  induction kvs with
  | nil => simp [cleanFields, getKey]
  | cons p kvs ih =>
      obtain ⟨k₀, v⟩ := p
      by_cases h0 : k₀ = k
      · simp [getKey, h0] at h
      · simp only [getKey, if_neg h0] at h
        simp only [cleanFields]
        cases removeEmptyValues v with
        | none => exact ih h
        | some w => simp [getKey, h0, ih h]

theorem getKey_cleanFields_some {kvs : List (String × Json)} {k : String} {v w : Json}
    (h : getKey kvs k = some v) (hv : removeEmptyValues v = some w) :
    getKey (cleanFields kvs) k = some w := by
  induction kvs with
  | nil => simp [getKey] at h
  | cons p kvs ih =>
      obtain ⟨k₀, u⟩ := p
      by_cases h0 : k₀ = k
      · subst h0
        simp only [getKey, eq_self_iff_true, if_true, Option.some_inj] at h
        subst h
        simp [cleanFields, hv, getKey]
      · simp only [getKey, if_neg h0] at h
        simp only [cleanFields]
        cases removeEmptyValues u with
        | none => exact ih h
        | some w' => simp [getKey, h0, ih h]

/-! ## Frame lemmas: which top-level keys each rewriting step can touch -/

theorem collapseNotifierStep_obj {kvs : List (String × Json)} {p1 : Json}
    (h : collapseNotifierStep (.obj kvs) = .ok p1) :
    ∃ kvs₁, p1 = .obj kvs₁ ∧ ∀ k : String,
      k ≠ "daneOsobyKtoraZawiadamia" →
      k ≠ "adresZamieszkaniaOsobyKtoraZawiadamia" →
      k ≠ "adresOstatniegoMiejscaZamieszkaniaWPolsceLubPobytuOsobyKtoraZawiadamia" →
      k ≠ "adresDoKorespondencjiOsobyKtoraZawiadamia" →
      getKey kvs₁ k = getKey kvs k := by
  simp only [collapseNotifierStep] at h
  split at h
  · next =>
      simp only [Except.ok.injEq] at h
      subst h
      refine ⟨_, rfl, fun k hk h1 h2 h3 => ?_⟩
      rw [getKey_delKey_ne _ h3, getKey_delKey_ne _ h2, getKey_delKey_ne _ h1,
        getKey_setKey_ne _ _ hk]
  · next =>
      simp only [Except.ok.injEq] at h
      subst h
      exact ⟨kvs, rfl, fun _ _ _ _ _ => rfl⟩

theorem filterWitnessesStep_obj {kvs : List (String × Json)} {p2 : Json}
    (h : filterWitnessesStep (.obj kvs) = .ok p2) :
    ∃ kvs₂, p2 = .obj kvs₂ ∧ ∀ k : String,
      k ≠ "daneSwiadkowWypadku" → getKey kvs₂ k = getKey kvs k := by
  simp only [filterWitnessesStep] at h
  cases hg : getKey kvs "daneSwiadkowWypadku" with
  | none =>
      rw [hg] at h
      simp only [Except.ok.injEq] at h
      subst h
      exact ⟨kvs, rfl, fun _ _ => rfl⟩
  | some v =>
      rw [hg] at h
      cases v with
      | arr ws =>
          cases hf : filterWitnesses ws with
          | error e => simp [hf, Bind.bind, Except.bind] at h
          | ok kept =>
              simp only [hf, Bind.bind, Except.bind] at h
              cases kept with
              | nil =>
                  simp only [pure, Except.pure, Except.ok.injEq] at h
                  subst h
                  exact ⟨_, rfl, fun k hk => getKey_delKey_ne _ hk⟩
              | cons w rest =>
                  simp only [pure, Except.pure, Except.ok.injEq] at h
                  subst h
                  exact ⟨_, rfl, fun k hk => getKey_setKey_ne _ _ hk⟩
      | null => simp only [Except.ok.injEq] at h; subst h; exact ⟨kvs, rfl, fun _ _ => rfl⟩
      | bool b => simp only [Except.ok.injEq] at h; subst h; exact ⟨kvs, rfl, fun _ _ => rfl⟩
      | num n => simp only [Except.ok.injEq] at h; subst h; exact ⟨kvs, rfl, fun _ _ => rfl⟩
      | str s => simp only [Except.ok.injEq] at h; subst h; exact ⟨kvs, rfl, fun _ _ => rfl⟩
      | obj o => simp only [Except.ok.injEq] at h; subst h; exact ⟨kvs, rfl, fun _ _ => rfl⟩

theorem dropIdentityDocStep_obj {kvs : List (String × Json)} {p3 : Json}
    (h : dropIdentityDocStep (.obj kvs) = .ok p3) :
    ∃ kvs₃, p3 = .obj kvs₃ ∧ ∀ k : String,
      k ≠ "daneOsobyPoszkodowanej" → getKey kvs₃ k = getKey kvs k := by
  simp only [dropIdentityDocStep] at h
  split at h
  · split at h
    · split at h
      · simp only [Except.ok.injEq] at h
        subst h
        exact ⟨_, rfl, fun k hk => getKey_setKey_ne _ _ hk⟩
      · simp only [Except.ok.injEq] at h
        subst h
        exact ⟨kvs, rfl, fun _ _ => rfl⟩
    · simp only [Except.ok.injEq] at h
      subst h
      exact ⟨kvs, rfl, fun _ _ => rfl⟩
  · simp only [Except.ok.injEq] at h
    subst h
    exact ⟨kvs, rfl, fun _ _ => rfl⟩

/-- A third lookup/clean lemma: under unique keys, an entry whose value is
removed entirely disappears from the cleaned object. -/
theorem getKey_cleanFields_of_clean_none {kvs : List (String × Json)} {k : String} {v : Json}
    (hnd : (kvs.map Prod.fst).Nodup) (h : getKey kvs k = some v)
    (hv : removeEmptyValues v = none) : getKey (cleanFields kvs) k = none := by
  induction kvs with
  | nil => simp [getKey] at h
  | cons p kvs ih =>
      obtain ⟨k₀, u⟩ := p
      simp only [List.map_cons, List.nodup_cons] at hnd
      by_cases h0 : k₀ = k
      · subst h0
        simp only [getKey, eq_self_iff_true, if_true, Option.some_inj] at h
        subst h
        simp only [cleanFields, hv]
        exact getKey_cleanFields_none
          ((Option.not_isSome_iff_eq_none).mp fun hs =>
            hnd.1 (mem_keys_iff_getKey.mpr hs))
      · simp only [getKey, if_neg h0] at h
        simp only [cleanFields]
        cases removeEmptyValues u with
        | none => exact ih hnd.2 h
        | some w => simp [getKey, h0, ih hnd.2 h]

/-- Reading one key of a cleaned object. -/
theorem member_clean_obj {kvs : List (String × Json)} {y : Json}
    (h : removeEmptyValues (.obj kvs) = some y) (k : String) :
    member y k = getKey (cleanFields kvs) k := by
  simp only [removeEmptyValues] at h
  cases hcf : cleanFields kvs with
  | nil => rw [hcf] at h; exact absurd h (by simp)
  | cons f fs =>
      rw [hcf] at h
      simp only [Option.some_inj] at h
      subst h
      rw [member]

/-! ## The steps keep top-level keys unique -/

theorem collapseNotifierStep_nodup {kvs kvs₁ : List (String × Json)}
    (h : collapseNotifierStep (.obj kvs) = .ok (.obj kvs₁))
    (hnd : (kvs.map Prod.fst).Nodup) : (kvs₁.map Prod.fst).Nodup := by
  simp only [collapseNotifierStep] at h
  split at h
  · simp only [Except.ok.injEq, Json.obj.injEq] at h
    subst h
    exact nodup_delKey _ _ (nodup_delKey _ _ (nodup_delKey _ _ (nodup_setKey _ _ _ hnd)))
  · simp only [Except.ok.injEq, Json.obj.injEq] at h
    subst h
    exact hnd

theorem filterWitnessesStep_nodup {kvs kvs₂ : List (String × Json)}
    (h : filterWitnessesStep (.obj kvs) = .ok (.obj kvs₂))
    (hnd : (kvs.map Prod.fst).Nodup) : (kvs₂.map Prod.fst).Nodup := by
  simp only [filterWitnessesStep] at h
  split at h
  · cases hf : filterWitnesses _ with
    | error e => rw [hf] at h; exact absurd h (by simp [Bind.bind, Except.bind])
    | ok kept =>
        rw [hf] at h
        simp only [Bind.bind, Except.bind] at h
        cases kept with
        | nil =>
            simp only [pure, Except.pure, Except.ok.injEq, Json.obj.injEq] at h
            subst h
            exact nodup_delKey _ _ hnd
        | cons w rest =>
            simp only [pure, Except.pure, Except.ok.injEq, Json.obj.injEq] at h
            subst h
            exact nodup_setKey _ _ _ hnd
  · simp only [Except.ok.injEq, Json.obj.injEq] at h
    subst h
    exact hnd

theorem dropIdentityDocStep_nodup {kvs kvs₃ : List (String × Json)}
    (h : dropIdentityDocStep (.obj kvs) = .ok (.obj kvs₃))
    (hnd : (kvs.map Prod.fst).Nodup) : (kvs₃.map Prod.fst).Nodup := by
  simp only [dropIdentityDocStep] at h
  split at h
  · split at h
    · split at h
      · simp only [Except.ok.injEq, Json.obj.injEq] at h
        subst h
        exact nodup_setKey _ _ _ hnd
      · simp only [Except.ok.injEq, Json.obj.injEq] at h
        subst h
        exact hnd
    · simp only [Except.ok.injEq, Json.obj.injEq] at h
      subst h
      exact hnd
  · simp only [Except.ok.injEq, Json.obj.injEq] at h
    subst h
    exact hnd

theorem collapseNotifierStep_collapse {kvs nkvs : List (String × Json)}
    (hget : getKey kvs "daneOsobyKtoraZawiadamia" = some (.obj nkvs))
    (hflag : truthyOpt (getKey nkvs "jestPoszkodowanym") = true) :
    collapseNotifierStep (.obj kvs) = .ok (.obj
      (delKey
        (delKey
          (delKey
            (setKey kvs "daneOsobyKtoraZawiadamia" (.obj [("jestPoszkodowanym", .bool true)]))
            "adresZamieszkaniaOsobyKtoraZawiadamia")
          "adresOstatniegoMiejscaZamieszkaniaWPolsceLubPobytuOsobyKtoraZawiadamia")
        "adresDoKorespondencjiOsobyKtoraZawiadamia")) := by
  simp [collapseNotifierStep, hget, member, hflag]

/-- The cleaned form of an object, given that some key survives. -/
theorem removeEmptyValues_obj_of_getKey {kvs : List (String × Json)} {k : String} {w : Json}
    (h : getKey (cleanFields kvs) k = some w) :
    removeEmptyValues (.obj kvs) = some (.obj (cleanFields kvs)) := by
  cases hcf : cleanFields kvs with
  | nil => rw [hcf] at h; simp [getKey] at h
  | cons f fs => simp [removeEmptyValues, hcf]

/-- `v` is `undefined` or a string (the shape the form fields deliver). -/
def isStrOpt : Option Json → Bool
  | none => true
  | some (.str _) => true
  | some _ => false

/-- The pure form of the witness-filter predicate (for non-`null` entries
it agrees with `witnessKept`). -/
def witnessKeepB (w : Json) : Bool :=
  truthyOpt (member w "imie") && truthyOpt (member w "nazwisko")

/-- If the filter ran without a `TypeError`, it computed exactly
`ws.filter witnessKeepB`. -/
theorem filterWitnesses_ok {ws : List Json} {kept : List Json}
    (h : filterWitnesses ws = .ok kept) : kept = ws.filter witnessKeepB := by
  induction ws generalizing kept with
  | nil =>
      simp only [filterWitnesses, Except.ok.injEq] at h
      simp [h.symm]
  | cons w ws ih =>
      rw [filterWitnesses] at h
      cases hk : witnessKept w with
      | error e => rw [hk] at h; simp [Bind.bind, Except.bind] at h
      | ok keep =>
          rw [hk] at h
          simp only [Bind.bind, Except.bind] at h
          cases hf : filterWitnesses ws with
          | error e => rw [hf] at h; exact absurd h (by simp)
          | ok rest =>
              rw [hf] at h
              simp only [pure, Except.pure, Except.ok.injEq] at h
              subst h
              have hkeep : keep = witnessKeepB w := by
                cases w <;> simp_all [witnessKept, witnessKeepB, member, truthyOpt]
              subst hkeep
              by_cases hb : witnessKeepB w = true <;>
                simp [List.filter_cons, hb, ih hf]

/-- The witness step, when the key holds an array and the filter leaves
nothing, deletes the key. -/
theorem filterWitnessesStep_del {kvs : List (String × Json)} {ws : List Json}
    (hw : getKey kvs "daneSwiadkowWypadku" = some (.arr ws))
    (hf : filterWitnesses ws = .ok []) :
    filterWitnessesStep (.obj kvs) = .ok (.obj (delKey kvs "daneSwiadkowWypadku")) := by
  simp [filterWitnessesStep, hw, hf, Bind.bind, Except.bind, pure, Except.pure]

/-- The witness step, when the key holds an array and some entries remain,
stores the filtered array back. -/
theorem filterWitnessesStep_set {kvs : List (String × Json)} {ws rest : List Json} {w : Json}
    (hw : getKey kvs "daneSwiadkowWypadku" = some (.arr ws))
    (hf : filterWitnesses ws = .ok (w :: rest)) :
    filterWitnessesStep (.obj kvs)
      = .ok (.obj (setKey kvs "daneSwiadkowWypadku" (.arr (w :: rest)))) := by
  simp [filterWitnessesStep, hw, hf, Bind.bind, Except.bind, pure, Except.pure]

/-- The identity-document deletion fires when both guard fields are falsy. -/
theorem dropIdentityDocStep_del {kvs dkvs dockvs : List (String × Json)}
    (hd : getKey kvs "daneOsobyPoszkodowanej" = some (.obj dkvs))
    (hdoc : getKey dkvs "dokumentTozsamosci" = some (.obj dockvs))
    (hr : truthyOpt (getKey dockvs "rodzaj") = false)
    (hs : truthyOpt (getKey dockvs "seriaINumer") = false) :
    dropIdentityDocStep (.obj kvs) = .ok (.obj (setKey kvs "daneOsobyPoszkodowanej"
      (.obj (delKey dkvs "dokumentTozsamosci")))) := by
  simp [dropIdentityDocStep, hd, hdoc, member, truthy, hr, hs]

/-- The identity-document deletion is skipped when a guard field is truthy. -/
theorem dropIdentityDocStep_skip {kvs dkvs dockvs : List (String × Json)}
    (hd : getKey kvs "daneOsobyPoszkodowanej" = some (.obj dkvs))
    (hdoc : getKey dkvs "dokumentTozsamosci" = some (.obj dockvs))
    (ht : (truthyOpt (getKey dockvs "rodzaj")
           || truthyOpt (getKey dockvs "seriaINumer")) = true) :
    dropIdentityDocStep (.obj kvs) = .ok (.obj kvs) := by
  rcases Bool.or_eq_true_iff.mp ht with h | h <;>
    simp [dropIdentityDocStep, hd, hdoc, member, truthy, h]

/-!
## Well-formedness and guard-field shape (for the idempotence analysis)

`wfJson` says every object in the tree has pairwise-distinct keys — true of
every value produced by a JavaScript runtime.  `goodGuards` says the fields
the three document rules test for truthiness (witness `imie`/`nazwisko`,
document `rodzaj`/`seriaINumer`) are primitive wherever present, as the
form always produces (they are text inputs).
-/

/-- Primitive (non-container) JSON value. -/
def atomic : Json → Bool
  | .arr _ => false
  | .obj _ => false
  | _ => true

def atomicOpt : Option Json → Bool
  | none => true
  | some v => atomic v

def keyNotIn (k : String) : List (String × Json) → Bool
  | [] => true
  | (k', _) :: kvs => (k' != k) && keyNotIn k kvs

def keysNodup : List (String × Json) → Bool
  | [] => true
  | (k, _) :: kvs => keyNotIn k kvs && keysNodup kvs

theorem keyNotIn_iff {k : String} {l : List (String × Json)} :
    keyNotIn k l = true ↔ k ∉ l.map Prod.fst := by
  induction l with
  | nil => simp [keyNotIn]
  | cons p l ih =>
      obtain ⟨k', v⟩ := p
      simp only [keyNotIn, Bool.and_eq_true, bne_iff_ne, ne_eq, ih, List.map_cons,
        List.mem_cons, not_or]
      exact and_congr_left' (not_congr ⟨Eq.symm, Eq.symm⟩)

theorem keysNodup_iff {l : List (String × Json)} :
    keysNodup l = true ↔ (l.map Prod.fst).Nodup := by
  induction l with
  | nil => simp [keysNodup]
  | cons p l ih =>
      obtain ⟨k, v⟩ := p
      simp [keysNodup, ih, keyNotIn_iff]

mutual

def wfJson : Json → Bool
  | .null => true
  | .bool _ => true
  | .num _ => true
  | .str _ => true
  | .arr xs => wfList xs
  | .obj kvs => keysNodup kvs && wfFields kvs

def wfList : List Json → Bool
  | [] => true
  | x :: xs => wfJson x && wfList xs

def wfFields : List (String × Json) → Bool
  | [] => true
  | (_, v) :: kvs => wfJson v && wfFields kvs

end

theorem wf_obj_nodup {kvs : List (String × Json)} (h : wfJson (.obj kvs) = true) :
    (kvs.map Prod.fst).Nodup := by
  rw [wfJson, Bool.and_eq_true] at h
  exact keysNodup_iff.mp h.1

theorem wfFields_get {kvs : List (String × Json)} {k : String} {v : Json}
    (h : wfFields kvs = true) (hg : getKey kvs k = some v) : wfJson v = true := by
  induction kvs with
  | nil => simp [getKey] at hg
  | cons p kvs ih =>
      obtain ⟨k₀, u⟩ := p
      rw [wfFields, Bool.and_eq_true] at h
      by_cases h0 : k₀ = k
      · rw [getKey, if_pos h0, Option.some_inj] at hg
        exact hg ▸ h.1
      · rw [getKey, if_neg h0] at hg
        exact ih h.2 hg

theorem wf_obj_get {kvs : List (String × Json)} {k : String} {v : Json}
    (h : wfJson (.obj kvs) = true) (hg : getKey kvs k = some v) : wfJson v = true := by
  rw [wfJson, Bool.and_eq_true] at h
  exact wfFields_get h.2 hg

/-- The guard fields of the witness entries and of the identity document
are primitive wherever present. -/
def goodWitnessEntry (w : Json) : Bool :=
  match w with
  | .obj wkvs => atomicOpt (getKey wkvs "imie") && atomicOpt (getKey wkvs "nazwisko")
  | _ => true

def goodGuards (x : Json) : Bool :=
  match x with
  | .obj kvs =>
      (match getKey kvs "daneSwiadkowWypadku" with
       | some (.arr ws) => ws.all goodWitnessEntry
       | _ => true)
      &&
      (match getKey kvs "daneOsobyPoszkodowanej" with
       | some (.obj dkvs) =>
           match getKey dkvs "dokumentTozsamosci" with
           | some (.obj dockvs) =>
               atomicOpt (getKey dockvs "rodzaj") && atomicOpt (getKey dockvs "seriaINumer")
           | _ => true
       | _ => true)
  | _ => true

/-- Cleaning preserves the outermost constructor. -/
theorem removeEmptyValues_cases {v w : Json} (h : removeEmptyValues v = some w) :
    (∃ b, v = .bool b ∧ w = .bool b) ∨ (∃ n, v = .num n ∧ w = .num n)
    ∨ (∃ s, v = .str s ∧ w = .str s ∧ s ≠ "")
    ∨ (∃ xs, v = .arr xs ∧ w = .arr (cleanList xs))
    ∨ (∃ kvs, v = .obj kvs ∧ w = .obj (cleanFields kvs)) := by
  cases v with
  | null => simp [removeEmptyValues] at h
  | bool b =>
      simp only [removeEmptyValues, Option.some_inj] at h
      exact Or.inl ⟨b, rfl, h.symm⟩
  | num n =>
      simp only [removeEmptyValues, Option.some_inj] at h
      exact Or.inr (Or.inl ⟨n, rfl, h.symm⟩)
  | str s =>
      by_cases hs : s = ""
      · simp [removeEmptyValues, hs] at h
      · simp only [removeEmptyValues, if_neg hs, Option.some_inj] at h
        exact Or.inr (Or.inr (Or.inl ⟨s, rfl, h.symm, hs⟩))
  | arr xs =>
      refine Or.inr (Or.inr (Or.inr (Or.inl ⟨xs, rfl, ?_⟩)))
      simp only [removeEmptyValues] at h
      cases hc : cleanList xs with
      | nil => rw [hc] at h; exact absurd h (by simp)
      | cons z zs => rw [hc] at h; simp only [Option.some_inj] at h; rw [← h]
  | obj kvs =>
      refine Or.inr (Or.inr (Or.inr (Or.inr ⟨kvs, rfl, ?_⟩)))
      simp only [removeEmptyValues] at h
      cases hc : cleanFields kvs with
      | nil => rw [hc] at h; exact absurd h (by simp)
      | cons f fs => rw [hc] at h; simp only [Option.some_inj] at h; rw [← h]

/-- A truthy primitive survives cleaning unchanged. -/
theorem atomic_truthy_clean {v : Json} (ha : atomic v = true) (ht : truthy v = true) :
    removeEmptyValues v = some v := by
  cases v with
  | null => simp [truthy] at ht
  | bool b => rfl
  | num n => rfl
  | str s =>
      rw [truthy, bne_iff_ne, ne_eq] at ht
      simp [removeEmptyValues, ht]
  | arr xs => simp [atomic] at ha
  | obj kvs => simp [atomic] at ha

/-- Every element of a cleaned list is the cleaning of an element. -/
theorem mem_cleanList {l : List Json} {z : Json} (h : z ∈ cleanList l) :
    ∃ w ∈ l, removeEmptyValues w = some z := by
  induction l with
  | nil => simp [cleanList] at h
  | cons w l ih =>
      rw [cleanList] at h
      cases hw : removeEmptyValues w with
      | none =>
          rw [hw] at h
          obtain ⟨u, hu, hc⟩ := ih h
          exact ⟨u, List.mem_cons_of_mem _ hu, hc⟩
      | some z' =>
          rw [hw] at h
          rcases List.mem_cons.mp h with h | h
          · exact ⟨w, List.mem_cons_self _ _, h ▸ hw⟩
          · obtain ⟨u, hu, hc⟩ := ih h
            exact ⟨u, List.mem_cons_of_mem _ hu, hc⟩

/-- A kept witness entry with primitive name fields cleans to an object
the filter keeps again. -/
theorem clean_keep_entry {w w' : Json} (hg : goodWitnessEntry w = true)
    (hk : witnessKeepB w = true) (hc : removeEmptyValues w = some w') :
    witnessKeepB w' = true ∧ w' ≠ .null := by
  rw [witnessKeepB, Bool.and_eq_true] at hk
  obtain ⟨hi, hn⟩ := hk
  cases w with
  | obj wkvs =>
      rw [member] at hi hn
      cases hgi : getKey wkvs "imie" with
      | none => rw [hgi] at hi; exact absurd hi (by simp [truthyOpt])
      | some iv =>
          cases hgn : getKey wkvs "nazwisko" with
          | none => rw [hgn] at hn; exact absurd hn (by simp [truthyOpt])
          | some nv =>
              rw [hgi] at hi
              rw [hgn] at hn
              rw [goodWitnessEntry, hgi, hgn, Bool.and_eq_true] at hg
              have hci : removeEmptyValues iv = some iv :=
                atomic_truthy_clean hg.1 (by simpa [truthyOpt] using hi)
              have hcn : removeEmptyValues nv = some nv :=
                atomic_truthy_clean hg.2 (by simpa [truthyOpt] using hn)
              have hgi' := getKey_cleanFields_some hgi hci
              have hgn' := getKey_cleanFields_some hgn hcn
              have hw' : w' = .obj (cleanFields wkvs) := by
                rw [removeEmptyValues_obj_of_getKey hgi'] at hc
                exact (Option.some_inj.mp hc).symm
              subst hw'
              refine ⟨?_, by simp⟩
              simp only [witnessKeepB, member]
              rw [hgi', hgn', Bool.and_eq_true]
              exact ⟨hi, hn⟩
  | null => exact absurd hi (by simp [member, truthyOpt])
  | bool b => exact absurd hi (by simp [member, truthyOpt])
  | num n => exact absurd hi (by simp [member, truthyOpt])
  | str s => exact absurd hi (by simp [member, truthyOpt])
  | arr xs => exact absurd hi (by simp [member, truthyOpt])

/-- The filter keeps a list of non-`null` entries it approves wholesale. -/
theorem filterWitnesses_all_keep {l : List Json}
    (h : ∀ w ∈ l, w ≠ .null ∧ witnessKeepB w = true) : filterWitnesses l = .ok l := by
  induction l with
  | nil => rfl
  | cons w l ih =>
      obtain ⟨hnn, hk⟩ := h w (List.mem_cons_self _ _)
      have hkept : witnessKept w = .ok true := by
        cases w with
        | null => exact absurd rfl hnn
        | obj wkvs => rw [witnessKept]; rw [witnessKeepB, member, member] at hk; rw [hk]
        | bool b => exact absurd hk (by simp [witnessKeepB, member, truthyOpt])
        | num n => exact absurd hk (by simp [witnessKeepB, member, truthyOpt])
        | str s => exact absurd hk (by simp [witnessKeepB, member, truthyOpt])
        | arr xs => exact absurd hk (by simp [witnessKeepB, member, truthyOpt])
      rw [filterWitnesses, hkept, ih (fun u hu => h u (List.mem_cons_of_mem _ hu))]
      rfl

/-- The value the collapse rule tests:
`payload.daneOsobyKtoraZawiadamia?.jestPoszkodowanym`. -/
def notifFlag (kvs : List (String × Json)) : Option Json :=
  match getKey kvs "daneOsobyKtoraZawiadamia" with
  | none => none
  | some .null => none
  | some v => member v "jestPoszkodowanym"

theorem collapseNotifierStep_skip {kvs : List (String × Json)}
    (h : truthyOpt (notifFlag kvs) = false) :
    collapseNotifierStep (.obj kvs) = .ok (.obj kvs) := by
  rw [collapseNotifierStep]
  split
  · next hcond => rw [notifFlag] at h; rw [h] at hcond; exact absurd hcond (by simp)
  · rfl

/-- The collapse step on an object, as one equation. -/
theorem collapseNotifierStep_obj_eq (kvs : List (String × Json)) :
    collapseNotifierStep (.obj kvs) =
      if truthyOpt (notifFlag kvs) then
        .ok (.obj
          (delKey
            (delKey
              (delKey
                (setKey kvs "daneOsobyKtoraZawiadamia" (.obj [("jestPoszkodowanym", .bool true)]))
                "adresZamieszkaniaOsobyKtoraZawiadamia")
              "adresOstatniegoMiejscaZamieszkaniaWPolsceLubPobytuOsobyKtoraZawiadamia")
            "adresDoKorespondencjiOsobyKtoraZawiadamia"))
      else .ok (.obj kvs) := rfl

theorem notifFlag_some {kvs : List (String × Json)} {v : Json}
    (h : getKey kvs "daneOsobyKtoraZawiadamia" = some v) :
    notifFlag kvs = member v "jestPoszkodowanym" := by
  cases v <;> simp [notifFlag, h, member]

def isArr : Json → Bool
  | .arr _ => true
  | _ => false

def isObj : Json → Bool
  | .obj _ => true
  | _ => false

theorem filterWitnessesStep_skipNone {kvs : List (String × Json)}
    (h : getKey kvs "daneSwiadkowWypadku" = none) :
    filterWitnessesStep (.obj kvs) = .ok (.obj kvs) := by
  simp [filterWitnessesStep, h]

theorem filterWitnessesStep_skipNonArr {kvs : List (String × Json)} {v : Json}
    (h : getKey kvs "daneSwiadkowWypadku" = some v) (hv : isArr v = false) :
    filterWitnessesStep (.obj kvs) = .ok (.obj kvs) := by
  cases v with
  | arr ws => simp [isArr] at hv
  | _ => simp [filterWitnessesStep, h]

theorem dropIdentityDocStep_skipNoParent {kvs : List (String × Json)}
    (h : getKey kvs "daneOsobyPoszkodowanej" = none) :
    dropIdentityDocStep (.obj kvs) = .ok (.obj kvs) := by
  simp [dropIdentityDocStep, h]

theorem dropIdentityDocStep_skipNonObjParent {kvs : List (String × Json)} {v : Json}
    (h : getKey kvs "daneOsobyPoszkodowanej" = some v) (hv : isObj v = false) :
    dropIdentityDocStep (.obj kvs) = .ok (.obj kvs) := by
  cases v with
  | obj dkvs => simp [isObj] at hv
  | _ => simp [dropIdentityDocStep, h]

theorem dropIdentityDocStep_skipNoDoc {kvs dkvs : List (String × Json)}
    (h : getKey kvs "daneOsobyPoszkodowanej" = some (.obj dkvs))
    (hd : getKey dkvs "dokumentTozsamosci" = none) :
    dropIdentityDocStep (.obj kvs) = .ok (.obj kvs) := by
  simp [dropIdentityDocStep, h, hd]

/-- The document rule on an object with a parent object and a document
entry, as one equation. -/
theorem dropIdentityDocStep_doc_eq {kvs dkvs : List (String × Json)} {doc : Json}
    (h : getKey kvs "daneOsobyPoszkodowanej" = some (.obj dkvs))
    (hd : getKey dkvs "dokumentTozsamosci" = some doc) :
    dropIdentityDocStep (.obj kvs) =
      if truthy doc && !truthyOpt (member doc "rodzaj") && !truthyOpt (member doc "seriaINumer")
      then .ok (.obj (setKey kvs "daneOsobyPoszkodowanej"
        (.obj (delKey dkvs "dokumentTozsamosci"))))
      else .ok (.obj kvs) := by
  simp [dropIdentityDocStep, h, hd]

/-- A falsy JSON value is primitive. -/
theorem falsy_atomic {v : Json} (h : truthy v = false) : atomic v = true := by
  cases v <;> simp_all [truthy, atomic]

theorem removeEmptyValues_arr_eq {xs zs : List Json} {z : Json}
    (h : cleanList xs = z :: zs) :
    removeEmptyValues (.arr xs) = some (.arr (z :: zs)) := by
  simp [removeEmptyValues, h]

theorem goodGuards_witness {kvs : List (String × Json)} {ws : List Json}
    (hg : goodGuards (.obj kvs) = true)
    (hw : getKey kvs "daneSwiadkowWypadku" = some (.arr ws)) :
    ∀ w ∈ ws, goodWitnessEntry w = true := by
  rw [goodGuards, hw, Bool.and_eq_true] at hg
  exact fun w hwmem => List.all_eq_true.mp hg.1 w hwmem

theorem goodGuards_doc {kvs dkvs dockvs : List (String × Json)}
    (hg : goodGuards (.obj kvs) = true)
    (hd : getKey kvs "daneOsobyPoszkodowanej" = some (.obj dkvs))
    (hdoc : getKey dkvs "dokumentTozsamosci" = some (.obj dockvs)) :
    atomicOpt (getKey dockvs "rodzaj") = true
    ∧ atomicOpt (getKey dockvs "seriaINumer") = true := by
  simp only [goodGuards, hd, hdoc, Bool.and_eq_true] at hg
  exact hg.2

/-- A kept witness entry with primitive name fields survives cleaning. -/
theorem keep_entry_clean {w : Json} (hg : goodWitnessEntry w = true)
    (hk : witnessKeepB w = true) : ∃ w', removeEmptyValues w = some w' := by
  rw [witnessKeepB, Bool.and_eq_true] at hk
  obtain ⟨hi, _⟩ := hk
  cases w with
  | obj wkvs =>
      rw [member] at hi
      cases hgi : getKey wkvs "imie" with
      | none => rw [hgi] at hi; exact absurd hi (by simp [truthyOpt])
      | some iv =>
          rw [hgi] at hi
          rw [goodWitnessEntry, hgi, Bool.and_eq_true] at hg
          have hci : removeEmptyValues iv = some iv :=
            atomic_truthy_clean hg.1 (by simpa [truthyOpt] using hi)
          exact ⟨_, removeEmptyValues_obj_of_getKey (getKey_cleanFields_some hgi hci)⟩
  | null => exact absurd hi (by simp [member, truthyOpt])
  | bool b => exact absurd hi (by simp [member, truthyOpt])
  | num n => exact absurd hi (by simp [member, truthyOpt])
  | str s => exact absurd hi (by simp [member, truthyOpt])
  | arr xs => exact absurd hi (by simp [member, truthyOpt])

/-- Cleaning cannot make `v.key` truthy when it was falsy. -/
theorem member_truthy_false_clean {v v' : Json} {k : String} (hwfv : wfJson v = true)
    (h : truthyOpt (member v k) = false) (hc : removeEmptyValues v = some v') :
    truthyOpt (member v' k) = false := by
  rcases removeEmptyValues_cases hc with
    ⟨b, rfl, rfl⟩ | ⟨n, rfl, rfl⟩ | ⟨s, rfl, rfl, _⟩ | ⟨xs, rfl, rfl⟩ | ⟨kvs, rfl, rfl⟩
  · rfl
  · rfl
  · rfl
  · rfl
  · rw [member] at h ⊢
    have hndk := wf_obj_nodup hwfv
    cases hgk : getKey kvs k with
    | none => rw [getKey_cleanFields_none hgk]; rfl
    | some fv =>
        rw [hgk] at h
        cases hcf : removeEmptyValues fv with
        | none => rw [getKey_cleanFields_of_clean_none hndk hgk hcf]; rfl
        | some fv' =>
            rw [getKey_cleanFields_some hgk hcf]
            rcases removeEmptyValues_cases hcf with
              ⟨b, rfl, rfl⟩ | ⟨n, rfl, rfl⟩ | ⟨s, rfl, rfl, hs⟩ | ⟨ys, rfl, rfl⟩
                | ⟨l, rfl, rfl⟩
            · exact h
            · exact h
            · exact absurd h (by simp [truthyOpt, truthy, hs])
            · exact absurd h (by simp [truthyOpt, truthy])
            · exact absurd h (by simp [truthyOpt, truthy])

/-!
## The three rules are no-ops on a cleaned, already-rewritten payload

Each lemma says: if the entry the rule inspects has the shape the first
pass leaves behind, the rule leaves the cleaned object unchanged.
-/

theorem collapse_fix {kvs₃ : List (String × Json)}
    (hnd3 : (kvs₃.map Prod.fst).Nodup)
    (hpack :
      (getKey kvs₃ "daneOsobyKtoraZawiadamia"
          = some (.obj [("jestPoszkodowanym", .bool true)])
        ∧ getKey kvs₃ "adresZamieszkaniaOsobyKtoraZawiadamia" = none
        ∧ getKey kvs₃
            "adresOstatniegoMiejscaZamieszkaniaWPolsceLubPobytuOsobyKtoraZawiadamia" = none
        ∧ getKey kvs₃ "adresDoKorespondencjiOsobyKtoraZawiadamia" = none)
      ∨ (∀ v, getKey kvs₃ "daneOsobyKtoraZawiadamia" = some v →
            wfJson v = true ∧ truthyOpt (member v "jestPoszkodowanym") = false)) :
    collapseNotifierStep (.obj (cleanFields kvs₃)) = .ok (.obj (cleanFields kvs₃)) := by
  rcases hpack with ⟨hN, hA1, hA2, hA3⟩ | hB
  · have hNy : getKey (cleanFields kvs₃) "daneOsobyKtoraZawiadamia"
        = some (.obj [("jestPoszkodowanym", .bool true)]) :=
      getKey_cleanFields_some hN (by decide)
    have hA1y := getKey_cleanFields_none hA1
    have hA2y := getKey_cleanFields_none hA2
    have hA3y := getKey_cleanFields_none hA3
    rw [collapseNotifierStep_collapse hNy (by decide)]
    rw [setKey_of_getKey_self _ _ _ hNy, delKey_of_getKey_none _ _ hA1y,
      delKey_of_getKey_none _ _ hA2y, delKey_of_getKey_none _ _ hA3y]
  · cases hgy : getKey kvs₃ "daneOsobyKtoraZawiadamia" with
    | none =>
        refine collapseNotifierStep_skip ?_
        simp [notifFlag, truthyOpt, getKey_cleanFields_none hgy]
    | some v =>
        obtain ⟨hwfv, hfl⟩ := hB v hgy
        cases hcv : removeEmptyValues v with
        | none =>
            refine collapseNotifierStep_skip ?_
            simp [notifFlag, truthyOpt, getKey_cleanFields_of_clean_none hnd3 hgy hcv]
        | some v' =>
            refine collapseNotifierStep_skip ?_
            rw [notifFlag_some (getKey_cleanFields_some hgy hcv)]
            exact member_truthy_false_clean hwfv hfl hcv

theorem filter_fix {kvs₃ : List (String × Json)}
    (hnd3 : (kvs₃.map Prod.fst).Nodup)
    (hpack : ∀ v, getKey kvs₃ "daneSwiadkowWypadku" = some v →
      isArr v = false
      ∨ ∃ w rest, v = .arr (w :: rest)
          ∧ ∀ u ∈ w :: rest, goodWitnessEntry u = true ∧ witnessKeepB u = true) :
    filterWitnessesStep (.obj (cleanFields kvs₃)) = .ok (.obj (cleanFields kvs₃)) := by
  cases hgw : getKey kvs₃ "daneSwiadkowWypadku" with
  | none => exact filterWitnessesStep_skipNone (getKey_cleanFields_none hgw)
  | some v =>
      cases hcv : removeEmptyValues v with
      | none =>
          exact filterWitnessesStep_skipNone (getKey_cleanFields_of_clean_none hnd3 hgw hcv)
      | some v' =>
          have hy := getKey_cleanFields_some hgw hcv
          rcases hpack v hgw with hna | ⟨w, rest, rfl, hall⟩
          · refine filterWitnessesStep_skipNonArr hy ?_
            rcases removeEmptyValues_cases hcv with
              ⟨b, rfl, rfl⟩ | ⟨n, rfl, rfl⟩ | ⟨s, rfl, rfl, _⟩ | ⟨xs, rfl, rfl⟩ | ⟨l, rfl, rfl⟩
            · rfl
            · rfl
            · rfl
            · simp [isArr] at hna
            · rfl
          · obtain ⟨hgw0, hkw0⟩ := hall w (List.mem_cons_self _ _)
            obtain ⟨w₀, hw₀⟩ := keep_entry_clean hgw0 hkw0
            have hclshape : cleanList (w :: rest) = w₀ :: cleanList rest := by
              rw [cleanList, hw₀]
            have harr := removeEmptyValues_arr_eq hclshape
            rw [harr] at hcv
            have hv' : v' = .arr (w₀ :: cleanList rest) := (Option.some_inj.mp hcv).symm
            subst hv'
            have hallk : ∀ z ∈ w₀ :: cleanList rest,
                z ≠ Json.null ∧ witnessKeepB z = true := by
              intro z hz
              rw [← hclshape] at hz
              obtain ⟨u, hu, hcu⟩ := mem_cleanList hz
              obtain ⟨hgu, hku⟩ := hall u hu
              obtain ⟨hkz, hnz⟩ := clean_keep_entry hgu hku hcu
              exact ⟨hnz, hkz⟩
            have hf : filterWitnesses (w₀ :: cleanList rest) = .ok (w₀ :: cleanList rest) :=
              filterWitnesses_all_keep hallk
            rw [filterWitnessesStep_set hy hf, setKey_of_getKey_self _ _ _ hy]

theorem drop_fix {kvs₃ : List (String × Json)}
    (hnd3 : (kvs₃.map Prod.fst).Nodup)
    (hpack : ∀ d, getKey kvs₃ "daneOsobyPoszkodowanej" = some d →
      isObj d = false
      ∨ ∃ dkvs, d = .obj dkvs ∧ (dkvs.map Prod.fst).Nodup ∧
          ∀ doc, getKey dkvs "dokumentTozsamosci" = some doc →
            (truthy doc = false ∧ atomic doc = true)
            ∨ ∃ dockvs, doc = .obj dockvs ∧
                ((∃ u, getKey dockvs "rodzaj" = some u ∧ atomic u = true ∧ truthy u = true)
                 ∨ (∃ u, getKey dockvs "seriaINumer" = some u
                      ∧ atomic u = true ∧ truthy u = true))) :
    dropIdentityDocStep (.obj (cleanFields kvs₃)) = .ok (.obj (cleanFields kvs₃)) := by
  cases hgd : getKey kvs₃ "daneOsobyPoszkodowanej" with
  | none => exact dropIdentityDocStep_skipNoParent (getKey_cleanFields_none hgd)
  | some d =>
      cases hcd : removeEmptyValues d with
      | none =>
          exact dropIdentityDocStep_skipNoParent
            (getKey_cleanFields_of_clean_none hnd3 hgd hcd)
      | some d' =>
          have hy := getKey_cleanFields_some hgd hcd
          rcases hpack d hgd with hno | ⟨dkvs, rfl, hnddk, hdocpack⟩
          · refine dropIdentityDocStep_skipNonObjParent hy ?_
            rcases removeEmptyValues_cases hcd with
              ⟨b, rfl, rfl⟩ | ⟨n, rfl, rfl⟩ | ⟨s, rfl, rfl, _⟩ | ⟨xs, rfl, rfl⟩ | ⟨l, rfl, rfl⟩
            · rfl
            · rfl
            · rfl
            · rfl
            · simp [isObj] at hno
          · have hd' : d' = .obj (cleanFields dkvs) := by
              rcases removeEmptyValues_cases hcd with
                ⟨b, hb, _⟩ | ⟨n, hn, _⟩ | ⟨s, hs, _, _⟩ | ⟨xs, hxs, _⟩ | ⟨l, hl, hvv⟩
              · exact absurd hb (by simp)
              · exact absurd hn (by simp)
              · exact absurd hs (by simp)
              · exact absurd hxs (by simp)
              · rw [hvv]
                have : dkvs = l := by injection hl
                rw [this]
            subst hd'
            cases hgdoc : getKey dkvs "dokumentTozsamosci" with
            | none => exact dropIdentityDocStep_skipNoDoc hy (getKey_cleanFields_none hgdoc)
            | some doc =>
                rcases hdocpack doc hgdoc with ⟨hfd, _⟩ | ⟨dockvs, rfl, hguards⟩
                · cases doc with
                  | null =>
                      exact dropIdentityDocStep_skipNoDoc hy
                        (getKey_cleanFields_of_clean_none hnddk hgdoc rfl)
                  | str s =>
                      have hs : s = "" := by simpa [truthy] using hfd
                      subst hs
                      exact dropIdentityDocStep_skipNoDoc hy
                        (getKey_cleanFields_of_clean_none hnddk hgdoc (by decide))
                  | bool b =>
                      have hb : b = false := by simpa [truthy] using hfd
                      subst hb
                      have hdy := getKey_cleanFields_some hgdoc
                        (show removeEmptyValues (Json.bool false)
                            = some (Json.bool false) from rfl)
                      rw [dropIdentityDocStep_doc_eq hy hdy]
                      simp [truthy]
                  | num n =>
                      have hn : n = 0 := by simpa [truthy] using hfd
                      subst hn
                      have hdy := getKey_cleanFields_some hgdoc
                        (show removeEmptyValues (Json.num 0) = some (Json.num 0) from rfl)
                      rw [dropIdentityDocStep_doc_eq hy hdy]
                      simp [truthy]
                  | arr xs => simp [truthy] at hfd
                  | obj l => simp [truthy] at hfd
                · rcases hguards with ⟨u, hgu, hau, htu⟩ | ⟨u, hgu, hau, htu⟩
                  · have hcu := atomic_truthy_clean hau htu
                    have hgu' := getKey_cleanFields_some hgu hcu
                    have hdoc' := removeEmptyValues_obj_of_getKey hgu'
                    have hdy := getKey_cleanFields_some hgdoc hdoc'
                    rw [dropIdentityDocStep_doc_eq hy hdy]
                    rw [if_neg (by simp [member, hgu', truthyOpt, htu])]
                  · have hcu := atomic_truthy_clean hau htu
                    have hgu' := getKey_cleanFields_some hgu hcu
                    have hdoc' := removeEmptyValues_obj_of_getKey hgu'
                    have hdy := getKey_cleanFields_some hgdoc hdoc'
                    rw [dropIdentityDocStep_doc_eq hy hdy]
                    rw [if_neg (by simp [member, hgu', truthyOpt, htu])]

/-- The document rule never touches fields of `daneOsobyPoszkodowanej`
other than `dokumentTozsamosci`. -/
theorem dropIdentityDocStep_parent_inner {kvs₂ kvs₃ dkvs : List (String × Json)} (k : String)
    (h3 : dropIdentityDocStep (.obj kvs₂) = .ok (.obj kvs₃))
    (hq : getKey kvs₂ "daneOsobyPoszkodowanej" = some (.obj dkvs))
    (hk : k ≠ "dokumentTozsamosci") :
    ∃ dkvs', getKey kvs₃ "daneOsobyPoszkodowanej" = some (.obj dkvs')
      ∧ getKey dkvs' k = getKey dkvs k := by
  cases hdoc : getKey dkvs "dokumentTozsamosci" with
  | none =>
      rw [dropIdentityDocStep_skipNoDoc hq hdoc] at h3
      simp only [Except.ok.injEq, Json.obj.injEq] at h3
      subst h3
      exact ⟨dkvs, hq, rfl⟩
  | some doc =>
      rw [dropIdentityDocStep_doc_eq hq hdoc] at h3
      split at h3
      · simp only [Except.ok.injEq, Json.obj.injEq] at h3
        subst h3
        exact ⟨delKey dkvs "dokumentTozsamosci", getKey_setKey_self _ _ _,
          getKey_delKey_ne _ hk⟩
      · simp only [Except.ok.injEq, Json.obj.injEq] at h3
        subst h3
        exact ⟨dkvs, hq, rfl⟩

end Json

/-!
## The submission path (App.js 737–751, 828–840)

`handleSubmit` serializes `buildPayload(formData)` as the POST `/form`
body.  The pesel input (App.js 828–840) is a plain required text field:
no pattern, length or digit check exists anywhere between the form state
and the request.
-/

def handleSubmitBody (formData : Json) : Except Unit (Option Json) :=
  buildPayload formData

/-- The national-ID format the specification's invariant names. -/
def isElevenDigitNumeric (s : String) : Bool :=
  s.length == 11 && s.toList.all Char.isDigit

/-!
# Claims

Each claim of the specification is settled below against the embedding.
-/

/-- C5 (amended): normalization strips empty values recursively — every
payload that `buildPayload` returns is clean (it contains no `null`, no
empty string, no empty array and no empty object, so a parent emptied by
child removal is itself removed) — and it strips nothing else: a clean
value passes through `removeEmptyValues` unchanged.  The original claim's
"whitespace-only string values" part is false (see the counterexample):
the code compares against `''` only, so `" "` is retained. -/
theorem claim_C5_amended :
    (∀ x y : Json, buildPayload x = .ok (some y) → isClean y = true)
    ∧ (∀ z : Json, isClean z = true → removeEmptyValues z = some z) := by
  constructor
  · intro x y h
    rw [buildPayload_eq_normalizeSteps] at h
    obtain ⟨p1, p2, p3, _, _, _, hclean⟩ := normalizeSteps_ok h
    exact isClean_removeEmptyValues p3 y hclean
  · intro z hz
    exact removeEmptyValues_of_isClean z hz

/-- Witness for C5: a concrete payload with one clean field and one `null`
field normalizes to the clean field alone, and the result is untouched by a
second strip. -/
theorem claim_C5_witness :
    isClean (Json.obj [("a", Json.str "x")]) = true
    ∧ removeEmptyValues (Json.obj [("a", Json.str "x")]) = some (Json.obj [("a", Json.str "x")]) :=
  ⟨claim_C5_amended.1 (Json.obj [("a", Json.str "x"), ("b", Json.null)])
      (Json.obj [("a", Json.str "x")]) (by decide),
   claim_C5_amended.2 (Json.obj [("a", Json.str "x")]) (by decide)⟩

/-- C5 counterexample: the claim says a field whose value is the
whitespace-only string `" "` is absent from the normalized payload, but
`buildPayload` keeps it verbatim (the code tests `obj === ''`). -/
theorem claim_C5_counterexample :
    buildPayload (Json.obj [("a", Json.str " ")])
      = .ok (some (Json.obj [("a", Json.str " ")]))
    ∧ (" " : String) ≠ "" := by
  exact ⟨by decide, by decide⟩

/-- C2: when the notifier record declares itself the victim
(`daneOsobyKtoraZawiadamia.jestPoszkodowanym == true`), the normalized
payload's notifier entity is exactly the one-key object
`{jestPoszkodowanym: true}` and all three notifier-address blocks are
absent.  (The top level of a JavaScript object cannot repeat a key, whence
the `Nodup` hypothesis.) -/
theorem claim_C2 (kvs nkvs : List (String × Json)) (y : Json)
    (hnd : (kvs.map Prod.fst).Nodup)
    (hn : Json.getKey kvs "daneOsobyKtoraZawiadamia" = some (.obj nkvs))
    (hflag : Json.getKey nkvs "jestPoszkodowanym" = some (.bool true))
    (hok : buildPayload (.obj kvs) = .ok (some y)) :
    Json.member y "daneOsobyKtoraZawiadamia"
      = some (.obj [("jestPoszkodowanym", Json.bool true)])
    ∧ Json.member y "adresZamieszkaniaOsobyKtoraZawiadamia" = none
    ∧ Json.member y "adresOstatniegoMiejscaZamieszkaniaWPolsceLubPobytuOsobyKtoraZawiadamia" = none
    ∧ Json.member y "adresDoKorespondencjiOsobyKtoraZawiadamia" = none := by
  rw [buildPayload_eq_normalizeSteps] at hok
  obtain ⟨p1, p2, p3, h1, h2, h3, hcl⟩ := normalizeSteps_ok hok
  rw [Json.collapseNotifierStep_collapse hn (by simp [Json.truthyOpt, hflag, Json.truthy])] at h1
  simp only [Except.ok.injEq] at h1
  set kvs₁ := Json.delKey
      (Json.delKey
        (Json.delKey
          (Json.setKey kvs "daneOsobyKtoraZawiadamia" (.obj [("jestPoszkodowanym", .bool true)]))
          "adresZamieszkaniaOsobyKtoraZawiadamia")
        "adresOstatniegoMiejscaZamieszkaniaWPolsceLubPobytuOsobyKtoraZawiadamia")
      "adresDoKorespondencjiOsobyKtoraZawiadamia" with hkvs₁
  have hndS : ((Json.setKey kvs "daneOsobyKtoraZawiadamia"
      (.obj [("jestPoszkodowanym", .bool true)])).map Prod.fst).Nodup :=
    Json.nodup_setKey _ _ _ hnd
  have hnd1 := Json.nodup_delKey _ "adresZamieszkaniaOsobyKtoraZawiadamia" hndS
  have hnd2 := Json.nodup_delKey _
    "adresOstatniegoMiejscaZamieszkaniaWPolsceLubPobytuOsobyKtoraZawiadamia" hnd1
  have hN : Json.getKey kvs₁ "daneOsobyKtoraZawiadamia"
      = some (.obj [("jestPoszkodowanym", Json.bool true)]) := by
    rw [hkvs₁, Json.getKey_delKey_ne _ (by decide), Json.getKey_delKey_ne _ (by decide),
      Json.getKey_delKey_ne _ (by decide), Json.getKey_setKey_self]
  have hA1 : Json.getKey kvs₁ "adresZamieszkaniaOsobyKtoraZawiadamia" = none := by
    rw [hkvs₁, Json.getKey_delKey_ne _ (by decide), Json.getKey_delKey_ne _ (by decide),
      Json.getKey_delKey_self_of_nodup _ _ hndS]
  have hA2 : Json.getKey kvs₁
      "adresOstatniegoMiejscaZamieszkaniaWPolsceLubPobytuOsobyKtoraZawiadamia" = none := by
    rw [hkvs₁, Json.getKey_delKey_ne _ (by decide),
      Json.getKey_delKey_self_of_nodup _ _ hnd1]
  have hA3 : Json.getKey kvs₁ "adresDoKorespondencjiOsobyKtoraZawiadamia" = none := by
    rw [hkvs₁, Json.getKey_delKey_self_of_nodup _ _ hnd2]
  subst h1
  obtain ⟨kvs₂, hp2, hf2⟩ := Json.filterWitnessesStep_obj h2
  subst hp2
  obtain ⟨kvs₃, hp3, hf3⟩ := Json.dropIdentityDocStep_obj h3
  subst hp3
  have hN3 : Json.getKey kvs₃ "daneOsobyKtoraZawiadamia"
      = some (.obj [("jestPoszkodowanym", Json.bool true)]) := by
    rw [hf3 _ (by decide), hf2 _ (by decide), hN]
  have hA13 : Json.getKey kvs₃ "adresZamieszkaniaOsobyKtoraZawiadamia" = none := by
    rw [hf3 _ (by decide), hf2 _ (by decide), hA1]
  have hA23 : Json.getKey kvs₃
      "adresOstatniegoMiejscaZamieszkaniaWPolsceLubPobytuOsobyKtoraZawiadamia" = none := by
    rw [hf3 _ (by decide), hf2 _ (by decide), hA2]
  have hA33 : Json.getKey kvs₃ "adresDoKorespondencjiOsobyKtoraZawiadamia" = none := by
    rw [hf3 _ (by decide), hf2 _ (by decide), hA3]
  simp only [removeEmptyValues] at hcl
  cases hcf : cleanFields kvs₃ with
  | nil => rw [hcf] at hcl; exact absurd hcl (by simp)
  | cons f fs =>
      rw [hcf] at hcl
      simp only [Option.some_inj] at hcl
      subst hcl
      have hmem : ∀ k : String, Json.member (Json.obj (f :: fs)) k
          = Json.getKey (cleanFields kvs₃) k := by
        intro k
        rw [Json.member, hcf]
      refine ⟨?_, ?_, ?_, ?_⟩
      · rw [hmem, Json.getKey_cleanFields_some hN3
          (show removeEmptyValues (Json.obj [("jestPoszkodowanym", Json.bool true)])
              = some (Json.obj [("jestPoszkodowanym", Json.bool true)]) by decide)]
      · rw [hmem, Json.getKey_cleanFields_none hA13]
      · rw [hmem, Json.getKey_cleanFields_none hA23]
      · rw [hmem, Json.getKey_cleanFields_none hA33]

/-- Witness for C2 at a concrete payload: a notifier with extra personal
fields and a filled notifier address collapse to the bare flag. -/
theorem claim_C2_witness :
    Json.member
      (Json.obj [("daneOsobyKtoraZawiadamia", .obj [("jestPoszkodowanym", Json.bool true)]),
                 ("x", Json.str "keep")])
      "daneOsobyKtoraZawiadamia" = some (.obj [("jestPoszkodowanym", Json.bool true)]) := by
  have h := claim_C2
    [("daneOsobyKtoraZawiadamia",
        Json.obj [("jestPoszkodowanym", Json.bool true), ("imie", Json.str "Jan")]),
     ("adresZamieszkaniaOsobyKtoraZawiadamia", Json.obj [("ulica", Json.str "u")]),
     ("x", Json.str "keep")]
    [("jestPoszkodowanym", Json.bool true), ("imie", Json.str "Jan")]
    (Json.obj [("daneOsobyKtoraZawiadamia", .obj [("jestPoszkodowanym", Json.bool true)]),
               ("x", Json.str "keep")])
    (by decide) (by decide) (by decide) (by decide)
  exact h.1

/-- C7 (amended): for a payload whose victim record and identity document
are objects with unique keys and whose two document fields, where present,
are strings, normalization discards
`daneOsobyPoszkodowanej.dokumentTozsamosci` exactly when both `rodzaj` and
`seriaINumer` are empty (absent or `""`), and retains it when at least one
is a non-empty string.  The original claim's "at least one non-empty field
is retained" is false for non-string field values: the code tests JavaScript
falsiness, so `rodzaj: false` — a value normalization itself retains — still
triggers the discard (see the counterexample). -/
theorem claim_C7_amended (kvs dkvs dockvs : List (String × Json)) (y : Json)
    (hnd : (kvs.map Prod.fst).Nodup)
    (hndd : (dkvs.map Prod.fst).Nodup)
    (hd : Json.getKey kvs "daneOsobyPoszkodowanej" = some (.obj dkvs))
    (hdoc : Json.getKey dkvs "dokumentTozsamosci" = some (.obj dockvs))
    (hrs : Json.isStrOpt (Json.getKey dockvs "rodzaj") = true)
    (hss : Json.isStrOpt (Json.getKey dockvs "seriaINumer") = true)
    (hok : buildPayload (.obj kvs) = .ok (some y)) :
    ((Json.member y "daneOsobyPoszkodowanej").bind
        (fun d => Json.member d "dokumentTozsamosci")).isSome
      = (Json.truthyOpt (Json.getKey dockvs "rodzaj")
         || Json.truthyOpt (Json.getKey dockvs "seriaINumer")) := by
  rw [buildPayload_eq_normalizeSteps] at hok
  obtain ⟨p1, p2, p3, h1, h2, h3, hcl⟩ := normalizeSteps_ok hok
  obtain ⟨kvs₁, hp1, hfr1⟩ := Json.collapseNotifierStep_obj h1
  subst hp1
  have hnd1 := Json.collapseNotifierStep_nodup h1 hnd
  obtain ⟨kvs₂, hp2, hfr2⟩ := Json.filterWitnessesStep_obj h2
  subst hp2
  have hnd2 := Json.filterWitnessesStep_nodup h2 hnd1
  have hparent2 : Json.getKey kvs₂ "daneOsobyPoszkodowanej" = some (.obj dkvs) := by
    rw [hfr2 _ (by decide), hfr1 _ (by decide) (by decide) (by decide) (by decide), hd]
  by_cases htr : (Json.truthyOpt (Json.getKey dockvs "rodzaj")
      || Json.truthyOpt (Json.getKey dockvs "seriaINumer")) = true
  · -- a guard field is a non-empty string: the document survives
    rw [Json.dropIdentityDocStep_skip hparent2 hdoc htr] at h3
    simp only [Except.ok.injEq] at h3
    subst h3
    -- find the surviving string field
    have hfld : ∃ fld s, (fld = "rodzaj" ∨ fld = "seriaINumer")
        ∧ Json.getKey dockvs fld = some (.str s) ∧ s ≠ "" := by
      rcases Bool.or_eq_true_iff.mp htr with h | h
      · cases hv : Json.getKey dockvs "rodzaj" with
        | none => rw [hv] at h; exact absurd h (by simp [Json.truthyOpt])
        | some v =>
            rw [hv] at h hrs
            cases v <;> simp [Json.isStrOpt] at hrs
            next s =>
              refine ⟨"rodzaj", s, Or.inl rfl, hv, ?_⟩
              simpa [Json.truthyOpt, Json.truthy] using h
      · cases hv : Json.getKey dockvs "seriaINumer" with
        | none => rw [hv] at h; exact absurd h (by simp [Json.truthyOpt])
        | some v =>
            rw [hv] at h hss
            cases v <;> simp [Json.isStrOpt] at hss
            next s =>
              refine ⟨"seriaINumer", s, Or.inr rfl, hv, ?_⟩
              simpa [Json.truthyOpt, Json.truthy] using h
    obtain ⟨fld, s, _, hfld, hsne⟩ := hfld
    have hdocclean : Json.getKey (cleanFields dockvs) fld = some (.str s) :=
      Json.getKey_cleanFields_some hfld (by simp [removeEmptyValues, hsne])
    have h5 := Json.removeEmptyValues_obj_of_getKey hdocclean
    have h6 : Json.getKey (cleanFields dkvs) "dokumentTozsamosci"
        = some (.obj (cleanFields dockvs)) := Json.getKey_cleanFields_some hdoc h5
    have h7 := Json.removeEmptyValues_obj_of_getKey h6
    have h8 : Json.member y "daneOsobyPoszkodowanej" = some (.obj (cleanFields dkvs)) := by
      rw [Json.member_clean_obj hcl, Json.getKey_cleanFields_some hparent2 h7]
    rw [h8, htr]
    simp [Json.member, h6]
  · -- both guard fields falsy: the document is deleted
    rw [Bool.not_eq_true, Bool.or_eq_false_iff] at htr
    rw [Json.dropIdentityDocStep_del hparent2 hdoc htr.1 htr.2] at h3
    simp only [Except.ok.injEq] at h3
    subst h3
    have hnd3 := Json.nodup_setKey kvs₂ "daneOsobyPoszkodowanej"
      (.obj (Json.delKey dkvs "dokumentTozsamosci")) hnd2
    have hparent3 := Json.getKey_setKey_self kvs₂ "daneOsobyPoszkodowanej"
      (.obj (Json.delKey dkvs "dokumentTozsamosci"))
    have hdocgone : Json.getKey (Json.delKey dkvs "dokumentTozsamosci")
        "dokumentTozsamosci" = none :=
      Json.getKey_delKey_self_of_nodup _ _ hndd
    rw [htr.1, htr.2]
    cases hrm : removeEmptyValues (.obj (Json.delKey dkvs "dokumentTozsamosci")) with
    | none =>
        rw [Json.member_clean_obj hcl,
          Json.getKey_cleanFields_of_clean_none hnd3 hparent3 hrm]
        rfl
    | some w =>
        rw [Json.member_clean_obj hcl, Json.getKey_cleanFields_some hparent3 hrm]
        have := Json.member_clean_obj hrm "dokumentTozsamosci"
        rw [Json.getKey_cleanFields_none hdocgone] at this
        simp [Option.bind, this]

/-- Witness for C7: a document with a non-empty `rodzaj` and empty
`seriaINumer` is retained in the normalized payload. -/
theorem claim_C7_witness :
    ((Json.member
        (Json.obj [("daneOsobyPoszkodowanej",
          Json.obj [("dokumentTozsamosci", Json.obj [("rodzaj", Json.str "Dowod")]),
                    ("imie", Json.str "J")])])
        "daneOsobyPoszkodowanej").bind
      (fun d => Json.member d "dokumentTozsamosci")).isSome
      = (Json.truthyOpt (Json.getKey
            [("rodzaj", Json.str "Dowod"), ("seriaINumer", Json.str "")] "rodzaj")
         || Json.truthyOpt (Json.getKey
            [("rodzaj", Json.str "Dowod"), ("seriaINumer", Json.str "")] "seriaINumer")) :=
  claim_C7_amended
    [("daneOsobyPoszkodowanej",
        Json.obj [("dokumentTozsamosci",
          Json.obj [("rodzaj", Json.str "Dowod"), ("seriaINumer", Json.str "")]),
          ("imie", Json.str "J")])]
    [("dokumentTozsamosci",
        Json.obj [("rodzaj", Json.str "Dowod"), ("seriaINumer", Json.str "")]),
     ("imie", Json.str "J")]
    [("rodzaj", Json.str "Dowod"), ("seriaINumer", Json.str "")]
    (Json.obj [("daneOsobyPoszkodowanej",
      Json.obj [("dokumentTozsamosci", Json.obj [("rodzaj", Json.str "Dowod")]),
                ("imie", Json.str "J")])])
    (by decide) (by decide) (by decide) (by decide) (by decide) (by decide) (by decide)

/-- C7 counterexample: with `rodzaj: false` — a value that
`removeEmptyValues` itself retains, i.e. a non-empty field — and
`seriaINumer: ""`, the claim says the document sub-object is retained, but
`buildPayload` discards it (the code's `!doc.rodzaj` tests falsiness, not
emptiness). -/
theorem claim_C7_counterexample :
    buildPayload (Json.obj [("daneOsobyPoszkodowanej",
        Json.obj [("dokumentTozsamosci",
          Json.obj [("rodzaj", Json.bool false), ("seriaINumer", Json.str "")]),
          ("imie", Json.str "J")])])
      = .ok (some (Json.obj [("daneOsobyPoszkodowanej", Json.obj [("imie", Json.str "J")])]))
    ∧ removeEmptyValues (Json.bool false) = some (Json.bool false) := by
  exact ⟨by decide, by decide⟩

/-- C3 (amended): for a payload (with unique top-level keys) whose
`daneSwiadkowWypadku` is an array `ws`, the normalized payload's witness
list is exactly the cleaned form of `ws.filter witnessKeepB` — the entries
whose given name AND family name are both truthy — with the key removed
when nothing remains.  In particular a list whose entries all have both
names empty normalizes to a payload with no witness list.  The original
claim's "an entry with at least one of the two names non-empty is
retained" is false: the code keeps an entry only when BOTH names are
truthy (see the counterexample). -/
theorem claim_C3_amended (kvs : List (String × Json)) (ws : List Json) (y : Json)
    (hnd : (kvs.map Prod.fst).Nodup)
    (hw : Json.getKey kvs "daneSwiadkowWypadku" = some (.arr ws))
    (hok : buildPayload (.obj kvs) = .ok (some y)) :
    Json.member y "daneSwiadkowWypadku"
      = removeEmptyValues (.arr (ws.filter Json.witnessKeepB)) := by
  rw [buildPayload_eq_normalizeSteps] at hok
  obtain ⟨p1, p2, p3, h1, h2, h3, hcl⟩ := normalizeSteps_ok hok
  obtain ⟨kvs₁, hp1, hfr1⟩ := Json.collapseNotifierStep_obj h1
  subst hp1
  have hnd1 := Json.collapseNotifierStep_nodup h1 hnd
  have hw1 : Json.getKey kvs₁ "daneSwiadkowWypadku" = some (.arr ws) := by
    rw [hfr1 _ (by decide) (by decide) (by decide) (by decide), hw]
  cases hf : Json.filterWitnesses ws with
  | error e =>
      simp [Json.filterWitnessesStep, hw1, hf, Bind.bind, Except.bind] at h2
  | ok kept =>
      have hkeptEq := Json.filterWitnesses_ok hf
      cases kept with
      | nil =>
          rw [Json.filterWitnessesStep_del hw1 hf] at h2
          simp only [Except.ok.injEq] at h2
          subst h2
          obtain ⟨kvs₃, hp3, hfr3⟩ := Json.dropIdentityDocStep_obj h3
          subst hp3
          have hw2 : Json.getKey (Json.delKey kvs₁ "daneSwiadkowWypadku")
              "daneSwiadkowWypadku" = none :=
            Json.getKey_delKey_self_of_nodup _ _ hnd1
          have hw3 : Json.getKey kvs₃ "daneSwiadkowWypadku" = none := by
            rw [hfr3 _ (by decide), hw2]
          rw [Json.member_clean_obj hcl, Json.getKey_cleanFields_none hw3, ← hkeptEq]
          rfl
      | cons w rest =>
          rw [Json.filterWitnessesStep_set hw1 hf] at h2
          simp only [Except.ok.injEq] at h2
          subst h2
          have hnd2 := Json.nodup_setKey kvs₁ "daneSwiadkowWypadku"
            (.arr (w :: rest)) hnd1
          obtain ⟨kvs₃, hp3, hfr3⟩ := Json.dropIdentityDocStep_obj h3
          subst hp3
          have hnd3 := Json.dropIdentityDocStep_nodup h3 hnd2
          have hw2 := Json.getKey_setKey_self kvs₁ "daneSwiadkowWypadku" (.arr (w :: rest))
          have hw3 : Json.getKey kvs₃ "daneSwiadkowWypadku" = some (.arr (w :: rest)) := by
            rw [hfr3 _ (by decide), hw2]
          rw [Json.member_clean_obj hcl, ← hkeptEq]
          cases hrm : removeEmptyValues (.arr (w :: rest)) with
          | none => rw [Json.getKey_cleanFields_of_clean_none hnd3 hw3 hrm]
          | some z => rw [Json.getKey_cleanFields_some hw3 hrm]

/-- Witness for C3: of two witnesses — one fully named, one with both
names empty — only the first survives, and the cleaned list keeps it. -/
theorem claim_C3_witness :
    Json.member
      (Json.obj [("daneSwiadkowWypadku",
          Json.arr [Json.obj [("imie", Json.str "A"), ("nazwisko", Json.str "B")]]),
        ("x", Json.str "k")])
      "daneSwiadkowWypadku"
      = removeEmptyValues (Json.arr
          (([Json.obj [("imie", Json.str "A"), ("nazwisko", Json.str "B")],
             Json.obj [("imie", Json.str ""), ("nazwisko", Json.str "")]]).filter
            Json.witnessKeepB)) :=
  claim_C3_amended
    [("daneSwiadkowWypadku",
        Json.arr [Json.obj [("imie", Json.str "A"), ("nazwisko", Json.str "B")],
                  Json.obj [("imie", Json.str ""), ("nazwisko", Json.str "")]]),
     ("x", Json.str "k")]
    [Json.obj [("imie", Json.str "A"), ("nazwisko", Json.str "B")],
     Json.obj [("imie", Json.str ""), ("nazwisko", Json.str "")]]
    (Json.obj [("daneSwiadkowWypadku",
        Json.arr [Json.obj [("imie", Json.str "A"), ("nazwisko", Json.str "B")]]),
      ("x", Json.str "k")])
    (by decide) (by decide) (by decide)

/-- C3 counterexample: a witness whose given name is the non-empty string
`"Anna"` but whose family name is empty is, per the claim, to be retained;
`buildPayload` discards it and removes the witness list entirely. -/
theorem claim_C3_counterexample :
    buildPayload (Json.obj [("daneSwiadkowWypadku",
        Json.arr [Json.obj [("imie", Json.str "Anna"), ("nazwisko", Json.str "")]]),
      ("x", Json.str "keep")])
      = .ok (some (Json.obj [("x", Json.str "keep")]))
    ∧ ("Anna" : String) ≠ "" := by
  exact ⟨by decide, by decide⟩

/-- C1 (amended): normalization is idempotent on every payload whose
objects have unique keys (true of all JavaScript values) and whose guard
fields — witness `imie`/`nazwisko` and identity-document
`rodzaj`/`seriaINumer` — are primitive wherever present (true of all
payloads the form produces, where they are text inputs):
`buildPayload x = ok (some y)` implies `buildPayload y = ok (some y)`.
The original unconditional claim is false: a witness whose `imie` is a
truthy container that cleans to nothing (e.g. `[]`) survives the filter
but loses its name, so a second normalization removes it (see the
counterexample). -/
theorem claim_C1_amended (x y : Json)
    (hwf : Json.wfJson x = true) (hg : Json.goodGuards x = true)
    (h : buildPayload x = .ok (some y)) :
    buildPayload y = .ok (some y) := by
  rw [buildPayload_eq_normalizeSteps] at h ⊢
  cases x with
  | null =>
      exfalso
      simp [normalizeSteps, Json.collapseNotifierStep, Bind.bind, Except.bind] at h
  | bool b =>
      have hb : normalizeSteps (Json.bool b) = .ok (some (.bool b)) := rfl
      rw [hb] at h
      simp only [Except.ok.injEq, Option.some_inj] at h
      subst h
      exact hb
  | num n =>
      have hb : normalizeSteps (Json.num n) = .ok (some (.num n)) := rfl
      rw [hb] at h
      simp only [Except.ok.injEq, Option.some_inj] at h
      subst h
      exact hb
  | str s =>
      have hb : normalizeSteps (Json.str s) = .ok (removeEmptyValues (.str s)) := rfl
      rw [hb] at h
      simp only [Except.ok.injEq] at h
      have hidem := removeEmptyValues_idem h
      by_cases hs : s = ""
      · subst hs
        rw [show removeEmptyValues (Json.str "") = none by decide] at h
        exact absurd h (by simp)
      · simp only [removeEmptyValues, if_neg hs, Option.some_inj] at h
        subst h
        have hb2 : normalizeSteps (Json.str s) = .ok (removeEmptyValues (.str s)) := rfl
        rw [hb2, hidem]
  | arr xs =>
      have hb : normalizeSteps (Json.arr xs) = .ok (removeEmptyValues (.arr xs)) := rfl
      rw [hb] at h
      simp only [Except.ok.injEq] at h
      have hidem := removeEmptyValues_idem h
      simp only [removeEmptyValues] at h
      cases hclx : cleanList xs with
      | nil => rw [hclx] at h; exact absurd h (by simp)
      | cons z zs =>
          rw [hclx] at h
          simp only [Option.some_inj] at h
          subst h
          have hb2 : normalizeSteps (Json.arr (z :: zs))
              = .ok (removeEmptyValues (.arr (z :: zs))) := rfl
          rw [hb2, hidem]
  | obj kvs =>
      obtain ⟨p1, p2, p3, h1, h2, h3, hcl⟩ := normalizeSteps_ok h
      have hnd : (kvs.map Prod.fst).Nodup := Json.wf_obj_nodup hwf
      obtain ⟨kvs₁, hp1, hfr1⟩ := Json.collapseNotifierStep_obj h1
      subst hp1
      have hnd1 := Json.collapseNotifierStep_nodup h1 hnd
      obtain ⟨kvs₂, hp2, hfr2⟩ := Json.filterWitnessesStep_obj h2
      subst hp2
      have hnd2 := Json.filterWitnessesStep_nodup h2 hnd1
      obtain ⟨kvs₃, hp3, hfr3⟩ := Json.dropIdentityDocStep_obj h3
      subst hp3
      have hnd3 := Json.dropIdentityDocStep_nodup h3 hnd2
      have hyform : y = .obj (cleanFields kvs₃) := by
        rcases Json.removeEmptyValues_cases hcl with
          ⟨b, hb, _⟩ | ⟨n, hn, _⟩ | ⟨s, hs, _, _⟩ | ⟨xs, hxs, _⟩ | ⟨l, hl, hy⟩
        · exact absurd hb (by simp)
        · exact absurd hn (by simp)
        · exact absurd hs (by simp)
        · exact absurd hxs (by simp)
        · injection hl with hl'
          rw [hy, ← hl']
      subst hyform
      have hsetup :
          ((Json.getKey kvs₃ "daneOsobyKtoraZawiadamia"
              = some (.obj [("jestPoszkodowanym", .bool true)])
            ∧ Json.getKey kvs₃ "adresZamieszkaniaOsobyKtoraZawiadamia" = none
            ∧ Json.getKey kvs₃
                "adresOstatniegoMiejscaZamieszkaniaWPolsceLubPobytuOsobyKtoraZawiadamia"
                = none
            ∧ Json.getKey kvs₃ "adresDoKorespondencjiOsobyKtoraZawiadamia" = none)
          ∨ (∀ v, Json.getKey kvs₃ "daneOsobyKtoraZawiadamia" = some v →
                Json.wfJson v = true ∧ Json.truthyOpt (Json.member v "jestPoszkodowanym") = false))
          ∧ Json.getKey kvs₁ "daneSwiadkowWypadku" = Json.getKey kvs "daneSwiadkowWypadku"
          ∧ Json.getKey kvs₁ "daneOsobyPoszkodowanej"
              = Json.getKey kvs "daneOsobyPoszkodowanej" := by
        by_cases hcond : Json.truthyOpt (Json.notifFlag kvs) = true
        · rw [Json.collapseNotifierStep_obj_eq, if_pos hcond] at h1
          simp only [Except.ok.injEq, Json.obj.injEq] at h1
          subst h1
          have hndS := Json.nodup_setKey kvs "daneOsobyKtoraZawiadamia"
            (.obj [("jestPoszkodowanym", .bool true)]) hnd
          have hndD1 := Json.nodup_delKey _ "adresZamieszkaniaOsobyKtoraZawiadamia" hndS
          have hndD2 := Json.nodup_delKey _
            "adresOstatniegoMiejscaZamieszkaniaWPolsceLubPobytuOsobyKtoraZawiadamia" hndD1
          refine ⟨Or.inl ⟨?_, ?_, ?_, ?_⟩, ?_, ?_⟩
          · rw [hfr3 _ (by decide), hfr2 _ (by decide),
              Json.getKey_delKey_ne _ (by decide), Json.getKey_delKey_ne _ (by decide),
              Json.getKey_delKey_ne _ (by decide), Json.getKey_setKey_self]
          · rw [hfr3 _ (by decide), hfr2 _ (by decide),
              Json.getKey_delKey_ne _ (by decide), Json.getKey_delKey_ne _ (by decide),
              Json.getKey_delKey_self_of_nodup _ _ hndS]
          · rw [hfr3 _ (by decide), hfr2 _ (by decide),
              Json.getKey_delKey_ne _ (by decide),
              Json.getKey_delKey_self_of_nodup _ _ hndD1]
          · rw [hfr3 _ (by decide), hfr2 _ (by decide),
              Json.getKey_delKey_self_of_nodup _ _ hndD2]
          · rw [Json.getKey_delKey_ne _ (by decide), Json.getKey_delKey_ne _ (by decide),
              Json.getKey_delKey_ne _ (by decide), Json.getKey_setKey_ne _ _ (by decide)]
          · rw [Json.getKey_delKey_ne _ (by decide), Json.getKey_delKey_ne _ (by decide),
              Json.getKey_delKey_ne _ (by decide), Json.getKey_setKey_ne _ _ (by decide)]
        · rw [Json.collapseNotifierStep_obj_eq, if_neg hcond] at h1
          simp only [Except.ok.injEq, Json.obj.injEq] at h1
          subst h1
          refine ⟨Or.inr ?_, rfl, rfl⟩
          intro v hv
          have hvx : Json.getKey kvs "daneOsobyKtoraZawiadamia" = some v := by
            rw [← hfr2 _ (by decide), ← hfr3 _ (by decide), hv]
          refine ⟨Json.wf_obj_get hwf hvx, ?_⟩
          rw [← Json.notifFlag_some hvx]
          exact Bool.not_eq_true _ ▸ hcond
      obtain ⟨hS1pack, hw1, hpar1⟩ := hsetup
      have hWpack : ∀ v, Json.getKey kvs₃ "daneSwiadkowWypadku" = some v →
          Json.isArr v = false
          ∨ ∃ w rest, v = .arr (w :: rest)
              ∧ ∀ u ∈ w :: rest, Json.goodWitnessEntry u = true
                  ∧ Json.witnessKeepB u = true := by
        cases hw : Json.getKey kvs "daneSwiadkowWypadku" with
        | none =>
            intro v hv
            exfalso
            rw [Json.filterWitnessesStep_skipNone (hw1.trans hw)] at h2
            simp only [Except.ok.injEq, Json.obj.injEq] at h2
            have hz : Json.getKey kvs₃ "daneSwiadkowWypadku" = none := by
              rw [hfr3 _ (by decide), ← h2, hw1, hw]
            rw [hv] at hz
            exact absurd hz (by simp)
        | some v0 =>
            have hw1' : Json.getKey kvs₁ "daneSwiadkowWypadku" = some v0 := hw1.trans hw
            cases v0 with
            | arr ws =>
                cases hf : Json.filterWitnesses ws with
                | error e =>
                    intro v hv
                    exfalso
                    simp [Json.filterWitnessesStep, hw1', hf, Bind.bind, Except.bind] at h2
                | ok kept =>
                    have hkeptEq := Json.filterWitnesses_ok hf
                    cases kept with
                    | nil =>
                        intro v hv
                        exfalso
                        rw [Json.filterWitnessesStep_del hw1' hf] at h2
                        simp only [Except.ok.injEq, Json.obj.injEq] at h2
                        have hz : Json.getKey kvs₃ "daneSwiadkowWypadku" = none := by
                          rw [hfr3 _ (by decide), ← h2,
                            Json.getKey_delKey_self_of_nodup _ _ hnd1]
                        rw [hv] at hz
                        exact absurd hz (by simp)
                    | cons w rest =>
                        intro v hv
                        rw [Json.filterWitnessesStep_set hw1' hf] at h2
                        simp only [Except.ok.injEq, Json.obj.injEq] at h2
                        have hz : Json.getKey kvs₃ "daneSwiadkowWypadku"
                            = some (.arr (w :: rest)) := by
                          rw [hfr3 _ (by decide), ← h2, Json.getKey_setKey_self]
                        rw [hv] at hz
                        have hveq : v = .arr (w :: rest) := Option.some_inj.mp hz
                        refine Or.inr ⟨w, rest, hveq, ?_⟩
                        intro u hu
                        have hu' : u ∈ ws ∧ Json.witnessKeepB u = true := by
                          have := hkeptEq ▸ hu
                          exact ⟨List.mem_of_mem_filter this,
                            List.of_mem_filter this⟩
                        exact ⟨Json.goodGuards_witness hg hw u hu'.1, hu'.2⟩
            | null =>
                intro v hv
                rw [Json.filterWitnessesStep_skipNonArr hw1' (by rfl)] at h2
                simp only [Except.ok.injEq, Json.obj.injEq] at h2
                have hz : Json.getKey kvs₃ "daneSwiadkowWypadku" = some .null := by
                  rw [hfr3 _ (by decide), ← h2, hw1']
                rw [hv] at hz
                exact Or.inl ((Option.some_inj.mp hz) ▸ rfl)
            | bool b =>
                intro v hv
                rw [Json.filterWitnessesStep_skipNonArr hw1' (by rfl)] at h2
                simp only [Except.ok.injEq, Json.obj.injEq] at h2
                have hz : Json.getKey kvs₃ "daneSwiadkowWypadku" = some (.bool b) := by
                  rw [hfr3 _ (by decide), ← h2, hw1']
                rw [hv] at hz
                exact Or.inl ((Option.some_inj.mp hz) ▸ rfl)
            | num n =>
                intro v hv
                rw [Json.filterWitnessesStep_skipNonArr hw1' (by rfl)] at h2
                simp only [Except.ok.injEq, Json.obj.injEq] at h2
                have hz : Json.getKey kvs₃ "daneSwiadkowWypadku" = some (.num n) := by
                  rw [hfr3 _ (by decide), ← h2, hw1']
                rw [hv] at hz
                exact Or.inl ((Option.some_inj.mp hz) ▸ rfl)
            | str s =>
                intro v hv
                rw [Json.filterWitnessesStep_skipNonArr hw1' (by rfl)] at h2
                simp only [Except.ok.injEq, Json.obj.injEq] at h2
                have hz : Json.getKey kvs₃ "daneSwiadkowWypadku" = some (.str s) := by
                  rw [hfr3 _ (by decide), ← h2, hw1']
                rw [hv] at hz
                exact Or.inl ((Option.some_inj.mp hz) ▸ rfl)
            | obj l =>
                intro v hv
                rw [Json.filterWitnessesStep_skipNonArr hw1' (by rfl)] at h2
                simp only [Except.ok.injEq, Json.obj.injEq] at h2
                have hz : Json.getKey kvs₃ "daneSwiadkowWypadku" = some (.obj l) := by
                  rw [hfr3 _ (by decide), ← h2, hw1']
                rw [hv] at hz
                exact Or.inl ((Option.some_inj.mp hz) ▸ rfl)
      have hpar2 : Json.getKey kvs₂ "daneOsobyPoszkodowanej"
          = Json.getKey kvs "daneOsobyPoszkodowanej" := by
        rw [hfr2 _ (by decide), hpar1]
      have hDpack : ∀ d, Json.getKey kvs₃ "daneOsobyPoszkodowanej" = some d →
          Json.isObj d = false
          ∨ ∃ dkvs, d = .obj dkvs ∧ (dkvs.map Prod.fst).Nodup ∧
              ∀ doc, Json.getKey dkvs "dokumentTozsamosci" = some doc →
                (Json.truthy doc = false ∧ Json.atomic doc = true)
                ∨ ∃ dockvs, doc = .obj dockvs ∧
                    ((∃ u, Json.getKey dockvs "rodzaj" = some u
                        ∧ Json.atomic u = true ∧ Json.truthy u = true)
                     ∨ (∃ u, Json.getKey dockvs "seriaINumer" = some u
                          ∧ Json.atomic u = true ∧ Json.truthy u = true)) := by
        cases hd : Json.getKey kvs "daneOsobyPoszkodowanej" with
        | none =>
            intro d hdd
            exfalso
            rw [Json.dropIdentityDocStep_skipNoParent (hpar2.trans hd)] at h3
            simp only [Except.ok.injEq, Json.obj.injEq] at h3
            have hz : Json.getKey kvs₃ "daneOsobyPoszkodowanej" = none := by
              rw [← h3, hpar2, hd]
            rw [hdd] at hz
            exact absurd hz (by simp)
        | some d0 =>
            have hq : Json.getKey kvs₂ "daneOsobyPoszkodowanej" = some d0 := hpar2.trans hd
            cases d0 with
            | obj dkvs =>
                have hwfd : Json.wfJson (.obj dkvs) = true := Json.wf_obj_get hwf hd
                have hnddk := Json.wf_obj_nodup hwfd
                cases hdoc : Json.getKey dkvs "dokumentTozsamosci" with
                | none =>
                    intro d hdd
                    rw [Json.dropIdentityDocStep_skipNoDoc hq hdoc] at h3
                    simp only [Except.ok.injEq, Json.obj.injEq] at h3
                    have hz : Json.getKey kvs₃ "daneOsobyPoszkodowanej"
                        = some (.obj dkvs) := by rw [← h3, hq]
                    rw [hdd] at hz
                    refine Or.inr ⟨dkvs, Option.some_inj.mp hz, hnddk, ?_⟩
                    intro doc hdocc
                    rw [hdoc] at hdocc
                    exact absurd hdocc (by simp)
                | some doc =>
                    rw [Json.dropIdentityDocStep_doc_eq hq hdoc] at h3
                    by_cases hdel : (Json.truthy doc
                        && !Json.truthyOpt (Json.member doc "rodzaj")
                        && !Json.truthyOpt (Json.member doc "seriaINumer")) = true
                    · rw [if_pos hdel] at h3
                      simp only [Except.ok.injEq, Json.obj.injEq] at h3
                      intro d hdd
                      have hz : Json.getKey kvs₃ "daneOsobyPoszkodowanej"
                          = some (.obj (Json.delKey dkvs "dokumentTozsamosci")) := by
                        rw [← h3, Json.getKey_setKey_self]
                      rw [hdd] at hz
                      refine Or.inr ⟨Json.delKey dkvs "dokumentTozsamosci",
                        Option.some_inj.mp hz, Json.nodup_delKey _ _ hnddk, ?_⟩
                      intro doc' hdocc'
                      rw [Json.getKey_delKey_self_of_nodup _ _ hnddk] at hdocc'
                      exact absurd hdocc' (by simp)
                    · rw [if_neg hdel] at h3
                      simp only [Except.ok.injEq, Json.obj.injEq] at h3
                      intro d hdd
                      have hz : Json.getKey kvs₃ "daneOsobyPoszkodowanej"
                          = some (.obj dkvs) := by rw [← h3, hq]
                      rw [hdd] at hz
                      refine Or.inr ⟨dkvs, Option.some_inj.mp hz, hnddk, ?_⟩
                      intro doc' hdocc'
                      rw [hdoc] at hdocc'
                      have hdeq : doc' = doc := Option.some_inj.mp hdocc'.symm
                      subst hdeq
                      by_cases ht : Json.truthy doc' = true
                      · by_cases hbr : Json.truthyOpt (Json.member doc' "rodzaj") = true
                        · cases doc' with
                          | obj dockvs =>
                              rw [Json.member] at hbr
                              cases hmr : Json.getKey dockvs "rodzaj" with
                              | none =>
                                  rw [hmr] at hbr
                                  exact absurd hbr (by simp [Json.truthyOpt])
                              | some rv =>
                                  rw [hmr] at hbr
                                  have hgd := Json.goodGuards_doc hg hd hdoc
                                  refine Or.inr ⟨dockvs, rfl, Or.inl ⟨rv, hmr, ?_, ?_⟩⟩
                                  · have := hgd.1
                                    rw [hmr] at this
                                    exact this
                                  · simpa [Json.truthyOpt] using hbr
                          | null => exact absurd hbr (by simp [Json.member, Json.truthyOpt])
                          | bool b => exact absurd hbr (by simp [Json.member, Json.truthyOpt])
                          | num n => exact absurd hbr (by simp [Json.member, Json.truthyOpt])
                          | str s => exact absurd hbr (by simp [Json.member, Json.truthyOpt])
                          | arr l => exact absurd hbr (by simp [Json.member, Json.truthyOpt])
                        · by_cases hbs : Json.truthyOpt (Json.member doc' "seriaINumer") = true
                          · cases doc' with
                            | obj dockvs =>
                                rw [Json.member] at hbs
                                cases hms : Json.getKey dockvs "seriaINumer" with
                                | none =>
                                    rw [hms] at hbs
                                    exact absurd hbs (by simp [Json.truthyOpt])
                                | some sv =>
                                    rw [hms] at hbs
                                    have hgd := Json.goodGuards_doc hg hd hdoc
                                    refine Or.inr ⟨dockvs, rfl, Or.inr ⟨sv, hms, ?_, ?_⟩⟩
                                    · have := hgd.2
                                      rw [hms] at this
                                      exact this
                                    · simpa [Json.truthyOpt] using hbs
                            | null => exact absurd hbs (by simp [Json.member, Json.truthyOpt])
                            | bool b => exact absurd hbs (by simp [Json.member, Json.truthyOpt])
                            | num n => exact absurd hbs (by simp [Json.member, Json.truthyOpt])
                            | str s => exact absurd hbs (by simp [Json.member, Json.truthyOpt])
                            | arr l => exact absurd hbs (by simp [Json.member, Json.truthyOpt])
                          · exfalso
                            exact absurd hdel (by simp [ht, hbr, hbs])
                      · exact Or.inl ⟨Bool.not_eq_true _ ▸ ht, Json.falsy_atomic
                          (Bool.not_eq_true _ ▸ ht)⟩
            | null =>
                intro d hdd
                rw [Json.dropIdentityDocStep_skipNonObjParent hq (by rfl)] at h3
                simp only [Except.ok.injEq, Json.obj.injEq] at h3
                have hz : Json.getKey kvs₃ "daneOsobyPoszkodowanej" = some .null := by
                  rw [← h3, hq]
                rw [hdd] at hz
                exact Or.inl ((Option.some_inj.mp hz) ▸ rfl)
            | bool b =>
                intro d hdd
                rw [Json.dropIdentityDocStep_skipNonObjParent hq (by rfl)] at h3
                simp only [Except.ok.injEq, Json.obj.injEq] at h3
                have hz : Json.getKey kvs₃ "daneOsobyPoszkodowanej" = some (.bool b) := by
                  rw [← h3, hq]
                rw [hdd] at hz
                exact Or.inl ((Option.some_inj.mp hz) ▸ rfl)
            | num n =>
                intro d hdd
                rw [Json.dropIdentityDocStep_skipNonObjParent hq (by rfl)] at h3
                simp only [Except.ok.injEq, Json.obj.injEq] at h3
                have hz : Json.getKey kvs₃ "daneOsobyPoszkodowanej" = some (.num n) := by
                  rw [← h3, hq]
                rw [hdd] at hz
                exact Or.inl ((Option.some_inj.mp hz) ▸ rfl)
            | str s =>
                intro d hdd
                rw [Json.dropIdentityDocStep_skipNonObjParent hq (by rfl)] at h3
                simp only [Except.ok.injEq, Json.obj.injEq] at h3
                have hz : Json.getKey kvs₃ "daneOsobyPoszkodowanej" = some (.str s) := by
                  rw [← h3, hq]
                rw [hdd] at hz
                exact Or.inl ((Option.some_inj.mp hz) ▸ rfl)
            | arr l =>
                intro d hdd
                rw [Json.dropIdentityDocStep_skipNonObjParent hq (by rfl)] at h3
                simp only [Except.ok.injEq, Json.obj.injEq] at h3
                have hz : Json.getKey kvs₃ "daneOsobyPoszkodowanej" = some (.arr l) := by
                  rw [← h3, hq]
                rw [hdd] at hz
                exact Or.inl ((Option.some_inj.mp hz) ▸ rfl)
      have hS1 := Json.collapse_fix hnd3 hS1pack
      have hS2 := Json.filter_fix hnd3 hWpack
      have hS3 := Json.drop_fix hnd3 hDpack
      have hS4 := removeEmptyValues_idem hcl
      rw [normalizeSteps_mk hS1 hS2 hS3, hS4]

/-- Witness for C1: a fully-named witness payload is a fixed point, as a
concrete application of the amended idempotence theorem. -/
theorem claim_C1_witness :
    buildPayload (Json.obj [("a", Json.str "hi"),
        ("daneSwiadkowWypadku",
          Json.arr [Json.obj [("imie", Json.str "A"), ("nazwisko", Json.str "B")]])])
      = .ok (some (Json.obj [("a", Json.str "hi"),
        ("daneSwiadkowWypadku",
          Json.arr [Json.obj [("imie", Json.str "A"), ("nazwisko", Json.str "B")]])])) :=
  claim_C1_amended
    (Json.obj [("a", Json.str "hi"),
      ("daneSwiadkowWypadku",
        Json.arr [Json.obj [("imie", Json.str "A"), ("nazwisko", Json.str "B")]])])
    (Json.obj [("a", Json.str "hi"),
      ("daneSwiadkowWypadku",
        Json.arr [Json.obj [("imie", Json.str "A"), ("nazwisko", Json.str "B")]])])
    (by decide) (by decide) (by decide)

/-- C1 counterexample: a witness whose `imie` is the truthy empty array
passes the name filter, but cleaning then removes the `imie` field, so the
second normalization discards the witness — and here the whole payload:
`normalize (normalize x) ≠ normalize x`. -/
theorem claim_C1_counterexample :
    buildPayload (Json.obj [("daneSwiadkowWypadku",
        Json.arr [Json.obj [("imie", Json.arr []), ("nazwisko", Json.str "N")]])])
      = .ok (some (Json.obj [("daneSwiadkowWypadku",
          Json.arr [Json.obj [("nazwisko", Json.str "N")]])]))
    ∧ buildPayload (Json.obj [("daneSwiadkowWypadku",
        Json.arr [Json.obj [("nazwisko", Json.str "N")]])]) = .ok none
    ∧ ¬ (buildPayload (Json.obj [("daneSwiadkowWypadku",
        Json.arr [Json.obj [("nazwisko", Json.str "N")]])])
          = .ok (some (Json.obj [("daneSwiadkowWypadku",
              Json.arr [Json.obj [("nazwisko", Json.str "N")]])]))) := by
  exact ⟨by decide, by decide, by decide⟩

/-- C6 (amended): the frontend applies no national-ID format check on the
submission path — whatever non-empty pesel string is in the form state is
carried verbatim into the body posted to `/form`.  The original claim
("no payload containing a pesel value that is not an 11-digit numeric
string is submitted to the backend") is false; see the counterexample. -/
theorem claim_C6_amended (kvs dkvs : List (String × Json)) (p : String) (y : Json)
    (hd : Json.getKey kvs "daneOsobyPoszkodowanej" = some (.obj dkvs))
    (hp : Json.getKey dkvs "pesel" = some (.str p)) (hpne : p ≠ "")
    (hok : handleSubmitBody (.obj kvs) = .ok (some y)) :
    ((Json.member y "daneOsobyPoszkodowanej").bind
        (fun d => Json.member d "pesel")) = some (.str p) := by
  rw [handleSubmitBody, buildPayload_eq_normalizeSteps] at hok
  obtain ⟨p1, p2, p3, h1, h2, h3, hcl⟩ := normalizeSteps_ok hok
  obtain ⟨kvs₁, hp1, hfr1⟩ := Json.collapseNotifierStep_obj h1
  subst hp1
  obtain ⟨kvs₂, hp2, hfr2⟩ := Json.filterWitnessesStep_obj h2
  subst hp2
  have hq : Json.getKey kvs₂ "daneOsobyPoszkodowanej" = some (.obj dkvs) := by
    rw [hfr2 _ (by decide), hfr1 _ (by decide) (by decide) (by decide) (by decide), hd]
  obtain ⟨kvs₃, hp3, hfr3⟩ := Json.dropIdentityDocStep_obj h3
  subst hp3
  obtain ⟨dkvs', hpar3, hpes3⟩ :=
    Json.dropIdentityDocStep_parent_inner "pesel" h3 hq (by decide)
  rw [hp] at hpes3
  have hpclean : Json.getKey (cleanFields dkvs') "pesel" = some (.str p) :=
    Json.getKey_cleanFields_some hpes3 (by simp [removeEmptyValues, hpne])
  have hdclean := Json.removeEmptyValues_obj_of_getKey hpclean
  rw [Json.member_clean_obj hcl, Json.getKey_cleanFields_some hpar3 hdclean]
  simp [Option.bind, Json.member, hpclean]

/-- Witness for C6: a pesel consisting of letters flows through
normalization into the submitted body unchanged. -/
theorem claim_C6_witness :
    ((Json.member
        (Json.obj [("daneOsobyPoszkodowanej",
          Json.obj [("pesel", Json.str "ABC"), ("imie", Json.str "J")])])
        "daneOsobyPoszkodowanej").bind
      (fun d => Json.member d "pesel")) = some (.str "ABC") :=
  claim_C6_amended
    [("daneOsobyPoszkodowanej", Json.obj [("pesel", Json.str "ABC"), ("imie", Json.str "J")])]
    [("pesel", Json.str "ABC"), ("imie", Json.str "J")]
    "ABC"
    (Json.obj [("daneOsobyPoszkodowanej",
      Json.obj [("pesel", Json.str "ABC"), ("imie", Json.str "J")])])
    (by decide) (by decide) (by decide) (by decide)

/-- C6 counterexample: the body submitted to `/form` for a form state
whose pesel is `"ABC"` still contains that pesel, and `"ABC"` is not an
11-digit numeric string — the claimed invariant does not hold at the
submission interface. -/
theorem claim_C6_counterexample :
    handleSubmitBody (Json.obj [("daneOsobyPoszkodowanej",
        Json.obj [("pesel", Json.str "ABC"), ("imie", Json.str "J")])])
      = .ok (some (Json.obj [("daneOsobyPoszkodowanej",
          Json.obj [("pesel", Json.str "ABC"), ("imie", Json.str "J")])]))
    ∧ isElevenDigitNumeric "ABC" = false := by
  exact ⟨by decide, by decide⟩

/-!
## `deepMerge` and `isObject` (App.js 601–621)

`deepMerge` combines the default form template with data prefilled from a
scan.  `{...target}` is object spread: the own enumerable properties of
the value — an object's fields, the index properties of an array or a
string, nothing for the other primitives.  The per-key body inlines the
`forEach` callback: when `source[key]` is a mapping it recursively merges
with `target[key]` if present (whatever that value is), otherwise the
overlay value is assigned.
-/

namespace Json

/-- App.js 619–621: `item && typeof item === 'object' && !Array.isArray(item)`. -/
def isObject : Json → Bool
  | .obj _ => true
  | _ => false

def indexFields (i : Nat) : List Json → List (String × Json)
  | [] => []
  | x :: xs => (toString i, x) :: indexFields (i + 1) xs

def indexChars (i : Nat) : List Char → List (String × Json)
  | [] => []
  | c :: cs => (toString i, .str (String.mk [c])) :: indexChars (i + 1) cs

/-- JavaScript object spread `{...v}`. -/
def spread : Json → List (String × Json)
  | .obj kvs => kvs
  | .arr xs => indexFields 0 xs
  | .str s => indexChars 0 s.toList
  | _ => []

mutual

def deepMerge : Json → Json → Json
  | target, .obj skvs =>
      if isObject target then .obj (mergeFields target (spread target) skvs)
      else .obj (spread target)
  | target, .null => .obj (spread target)
  | target, .bool _ => .obj (spread target)
  | target, .num _ => .obj (spread target)
  | target, .str _ => .obj (spread target)
  | target, .arr _ => .obj (spread target)

def mergeFields (target : Json) (out : List (String × Json)) :
    List (String × Json) → List (String × Json)
  | [] => out
  | (key, sv) :: rest =>
      mergeFields target
        (setKey out key
          (if isObject sv then
            match member target key with
            | some tv => deepMerge tv sv
            | none => sv
          else sv))
        rest

end

end Json

example :
    Json.deepMerge (.obj [("a", .num 5), ("c", .str "z")])
        (.obj [("a", .obj [("b", .str "x")]), ("d", .bool true)])
      = .obj [("a", .obj []), ("c", .str "z"), ("d", .bool true)] := by decide

example :
    Json.deepMerge (.obj [("a", .obj [("u", .str "1"), ("v", .str "2")])])
        (.obj [("a", .obj [("v", .str "3")])])
      = .obj [("a", .obj [("u", .str "1"), ("v", .str "3")])] := by decide

example :
    Json.deepMerge (.obj [("a", .arr [.num 1, .num 2])]) (.obj [("a", .arr [.num 3])])
      = .obj [("a", .arr [.num 3])] := by decide

namespace Json

theorem mergeFields_getKey_notin {target : Json} {k : String} :
    ∀ (rest out : List (String × Json)), k ∉ rest.map Prod.fst →
      getKey (mergeFields target out rest) k = getKey out k := by
  intro rest
  induction rest with
  | nil => intro out _; rfl
  | cons p rest ih =>
      obtain ⟨k₀, sv⟩ := p
      intro out hk
      simp only [List.map_cons, List.mem_cons, not_or] at hk
      rw [mergeFields, ih _ hk.2, getKey_setKey_ne _ _ hk.1]

theorem mergeFields_getKey_hit {target : Json} {k : String} {sv : Json} :
    ∀ (rest out : List (String × Json)), (rest.map Prod.fst).Nodup →
      getKey rest k = some sv →
      getKey (mergeFields target out rest) k
        = some (if isObject sv then
            match member target k with
            | some tv => deepMerge tv sv
            | none => sv
          else sv) := by
  intro rest
  induction rest with
  | nil => intro out _ h; simp [getKey] at h
  | cons p rest ih =>
      obtain ⟨k₀, sv₀⟩ := p
      intro out hnd h
      simp only [List.map_cons, List.nodup_cons] at hnd
      by_cases h0 : k₀ = k
      · subst h0
        rw [getKey, if_pos rfl, Option.some_inj] at h
        subst h
        rw [mergeFields, mergeFields_getKey_notin rest _ hnd.1, getKey_setKey_self]
      · rw [getKey, if_neg h0] at h
        rw [mergeFields, ih _ hnd.2 h]

/-- `deepMerge` on two objects, unfolded. -/
theorem deepMerge_obj_obj (tkvs skvs : List (String × Json)) :
    deepMerge (.obj tkvs) (.obj skvs) = .obj (mergeFields (.obj tkvs) tkvs skvs) := rfl

end Json

/-- C4 (amended): merging prefilled data onto the template combines two
objects key by key: a key absent from the overlay keeps the base value; a
non-mapping overlay value (including arrays, which are replaced wholesale,
never concatenated) replaces the base value; a mapping overlay value
merges recursively with a present base value and is taken as-is when the
key is absent from the base.  The original claim's remaining corner —
"when the base value is a non-mapping and the overlay value is a mapping,
the overlay replaces the base" — is false: the recursive call spreads the
non-mapping base into a fresh object and returns that, so the overlay
mapping is lost (conjunct 5 here, and the counterexample). -/
theorem claim_C4_amended (tkvs skvs : List (String × Json)) (k : String)
    (hnd : (skvs.map Prod.fst).Nodup) :
    (∀ sv, Json.getKey skvs k = some sv → Json.isObject sv = false →
        Json.member (Json.deepMerge (.obj tkvs) (.obj skvs)) k = some sv)
    ∧ (∀ sv tv, Json.getKey skvs k = some sv → Json.isObject sv = true →
        Json.getKey tkvs k = some tv →
        Json.member (Json.deepMerge (.obj tkvs) (.obj skvs)) k
          = some (Json.deepMerge tv sv))
    ∧ (∀ sv, Json.getKey skvs k = some sv → Json.isObject sv = true →
        Json.getKey tkvs k = none →
        Json.member (Json.deepMerge (.obj tkvs) (.obj skvs)) k = some sv)
    ∧ (Json.getKey skvs k = none →
        Json.member (Json.deepMerge (.obj tkvs) (.obj skvs)) k = Json.getKey tkvs k)
    ∧ (∀ tv sv, Json.isObject tv = false → Json.isObject sv = true →
        Json.deepMerge tv sv = .obj (Json.spread tv)) := by
  refine ⟨?_, ?_, ?_, ?_, ?_⟩
  · intro sv hsv hno
    rw [Json.deepMerge_obj_obj, Json.member,
      Json.mergeFields_getKey_hit skvs tkvs hnd hsv, if_neg (by simp [hno])]
  · intro sv tv hsv hso htv
    rw [Json.deepMerge_obj_obj, Json.member,
      Json.mergeFields_getKey_hit skvs tkvs hnd hsv, if_pos hso]
    rw [show Json.member (.obj tkvs) k = some tv from htv]
  · intro sv hsv hso htv
    rw [Json.deepMerge_obj_obj, Json.member,
      Json.mergeFields_getKey_hit skvs tkvs hnd hsv, if_pos hso]
    rw [show Json.member (.obj tkvs) k = none from htv]
  · intro hsv
    rw [Json.deepMerge_obj_obj, Json.member]
    exact Json.mergeFields_getKey_notin skvs tkvs
      (fun hm => by rw [Json.mem_keys_iff_getKey, hsv] at hm; exact absurd hm (by simp))
  · intro tv sv htv hsv
    cases sv with
    | obj l => cases tv <;> simp [Json.deepMerge, Json.isObject] at htv ⊢
    | null => simp [Json.isObject] at hsv
    | bool b => simp [Json.isObject] at hsv
    | num n => simp [Json.isObject] at hsv
    | str s => simp [Json.isObject] at hsv
    | arr l => simp [Json.isObject] at hsv

/-- Witness for C4: overlay replaces a non-mapping with a non-mapping,
merges mappings recursively, keeps keys absent from the overlay, and
(conjunct 5) spreads a numeric base into `{}` when the overlay is a
mapping. -/
theorem claim_C4_witness :
    Json.member (Json.deepMerge (.obj [("a", Json.num 5), ("c", Json.str "z")])
        (.obj [("a", Json.str "w")])) "a" = some (Json.str "w")
    ∧ Json.deepMerge (Json.num 5) (.obj [("b", Json.str "x")])
        = .obj (Json.spread (Json.num 5)) := by
  have h := claim_C4_amended [("a", Json.num 5), ("c", Json.str "z")]
    [("a", Json.str "w")] "a" (by decide)
  exact ⟨h.1 (Json.str "w") (by decide) (by decide),
    h.2.2.2.2 (Json.num 5) (.obj [("b", Json.str "x")]) (by decide) (by decide)⟩

/-- C4 counterexample: with base `{a: 5}` and overlay `{a: {b: "x"}}` the
claim requires the result `{a: {b: "x"}}`; the code produces `{a: {}}` —
the spread of the number — losing the overlay mapping. -/
theorem claim_C4_counterexample :
    Json.deepMerge (.obj [("a", Json.num 5)]) (.obj [("a", Json.obj [("b", Json.str "x")])])
      = .obj [("a", Json.obj [])]
    ∧ Json.obj [("a", Json.obj [])] ≠ .obj [("a", Json.obj [("b", Json.str "x")])] := by
  exact ⟨by decide, by decide⟩

/-!
## The scan page (App.js 62–130)

`SkanPage` keeps four pieces of state (`file`, `status`, `ocrResult`,
`validationData`).  `handleFile` guards on the MIME type, then uploads and
reacts to the reply.  The reply (or the thrown network error) is the
function's only other input, modelled as an oracle argument; status
messages are represented by their i18n keys, and the `navigate` call on a
valid reply leaves the local state as it stood.
-/

structure ScanStatus where
  kind : String
  message : String
  deriving Repr, DecidableEq

structure FileInfo where
  name : String
  mime : String
  deriving Repr, DecidableEq

structure ScanState where
  file : Option FileInfo
  status : Option ScanStatus
  ocrResult : Option Json
  validationData : Option Json
  deriving Repr, DecidableEq

inductive ScanResponse where
  | netError
  | reply (ok : Bool) (success : Bool) (valid : Bool) (pdfFilename : Option String)
      (message : String) (detail : Option String)
      (ocr : Option Json) (vdata : Option Json)

/-- App.js 79–130.  Returns the final component state and whether the
`POST /skan` request was issued. -/
def handleFile (s : ScanState) (f : FileInfo) (resp : ScanResponse) : ScanState × Bool :=
  if f.mime ≠ "application/pdf" then
    ({ s with status := some ⟨"error", "skan.pdf_only"⟩ }, false)
  else
    let s1 : ScanState :=
      { file := some f, ocrResult := none, validationData := none,
        status := some ⟨"loading", "skan.uploading"⟩ }
    match resp with
    | .netError => ({ s1 with status := some ⟨"error", "skan.error"⟩ }, true)
    | .reply ok success valid pdfFilename message detail ocr vdata =>
        if ok && success then
          if valid && pdfFilename.isSome then (s1, true)
          else
            ({ s1 with
                status := some ⟨"success", message⟩,
                ocrResult := ocr,
                validationData := vdata }, true)
        else if ok && !success then
          ({ s1 with
              status := some ⟨"error", message⟩,
              ocrResult := ocr,
              validationData := vdata }, true)
        else
          ({ s1 with status := some ⟨"error", detail.getD "skan.error"⟩ }, true)

/-- C8: a selected file whose MIME type is not `application/pdf` makes
`handleFile` set an error status and return before the upload: no request
is issued and the stored file, OCR result and validation data are exactly
the previous ones, whatever the network would have replied; and the
request is issued only for `application/pdf` files. -/
theorem claim_C8 :
    (∀ (s : ScanState) (f : FileInfo) (resp : ScanResponse),
        f.mime ≠ "application/pdf" →
        handleFile s f resp
          = ({ s with status := some ⟨"error", "skan.pdf_only"⟩ }, false))
    ∧ (∀ (s : ScanState) (f : FileInfo) (resp : ScanResponse),
        (handleFile s f resp).2 = true → f.mime = "application/pdf") := by
  constructor
  · intro s f resp h
    simp [handleFile, h]
  · intro s f resp h
    by_cases hm : f.mime = "application/pdf"
    · exact hm
    · rw [handleFile, if_pos hm] at h
      exact absurd h (by simp)

/-- Witness for C8 at a concrete non-PDF file: the stored file, OCR
result and validation data survive, the status turns to the error, and no
request is sent. -/
theorem claim_C8_witness :
    handleFile ⟨some ⟨"old.pdf", "application/pdf"⟩, none, some (Json.str "ocr"),
        some (Json.bool true)⟩
      ⟨"notes.txt", "text/plain"⟩ .netError
      = (⟨some ⟨"old.pdf", "application/pdf"⟩, some ⟨"error", "skan.pdf_only"⟩,
          some (Json.str "ocr"), some (Json.bool true)⟩, false) :=
  claim_C8.1
    ⟨some ⟨"old.pdf", "application/pdf"⟩, none, some (Json.str "ocr"),
      some (Json.bool true)⟩
    ⟨"notes.txt", "text/plain"⟩ .netError (by decide)

/-!
## `updateField` (App.js 647–668)

A path is a list of keys — form-section names and, for the witness list,
array indices.  The handler copies the spine (`{...prev}`, then per level
`[...current[key]]` for an array and `{...(current[key] || {})}`
otherwise), assigns the value at the last key, and separately deletes the
dot-joined key from `fieldErrors` when its current value is truthy.
A JavaScript numeric key on an object coerces to its decimal string;
a string key on an array (never used by the form, which indexes arrays
only with numbers) is modelled as addressing nothing.
-/

inductive PathKey where
  | fld (s : String)
  | idx (n : Nat)
  deriving Repr, DecidableEq

def PathKey.asString : PathKey → String
  | .fld s => s
  | .idx n => toString n

/-- `path.join('.')`. -/
def pathJoin (path : List PathKey) : String :=
  String.intercalate "." (path.map PathKey.asString)

namespace Json

/-- `current[key]` as a read. -/
def readKey (c : Json) (k : PathKey) : Option Json :=
  match c, k with
  | .obj kvs, k => getKey kvs k.asString
  | .arr xs, .idx n => xs[n]?
  | _, _ => none

/-- `xs[n] = v` on an array; assigning past the end pads with holes,
which serialize as `null`. -/
def arraySet (xs : List Json) (n : Nat) (v : Json) : List Json :=
  if n < xs.length then xs.set n v
  else xs ++ List.replicate (n - xs.length) .null ++ [v]

/-- `current[key] = v` as a write (no-op in the unreachable cases: the
spine containers are always objects or arrays). -/
def writeKey (c : Json) (k : PathKey) (v : Json) : Json :=
  match c, k with
  | .obj kvs, k => .obj (setKey kvs k.asString v)
  | .arr xs, .idx n => .arr (arraySet xs n v)
  | c, _ => c

/-- `Array.isArray(current[key]) ? [...current[key]] : {...(current[key] || {})}`. -/
def childContainer : Option Json → Json
  | some (.arr xs) => .arr xs
  | some w => if truthy w then .obj (spread w) else .obj []
  | none => .obj []

/-- The loop of the `setFormData` updater, as the value it builds.  An
empty path makes the final assignment at `path[-1]`, i.e. the property
named `"undefined"`. -/
def setPath (c : Json) : List PathKey → Json → Json
  | [], v => writeKey c (.fld "undefined") v
  | [k], v => writeKey c k v
  | k :: k2 :: rest, v =>
      writeKey c k (setPath (childContainer (readKey c k)) (k2 :: rest) v)

/-- Reading a whole path. -/
def getPath (c : Json) : List PathKey → Option Json
  | [] => some c
  | k :: rest =>
      match readKey c k with
      | none => none
      | some child => getPath child rest

/-- One step of addressability: the container accepts the key. -/
def stepOk (c : Json) (k : PathKey) : Bool :=
  match c, k with
  | .obj _, _ => true
  | .arr xs, .idx n => decide (n < xs.length)
  | _, _ => false

/-- The path addresses an entry of `c`: every intermediate node exists
and is a container, every array index is in range. -/
def pathFits (c : Json) : List PathKey → Bool
  | [] => true
  | [k] => stepOk c k
  | k :: k2 :: rest =>
      stepOk c k &&
        (match readKey c k with
         | some (.obj kvs) => pathFits (.obj kvs) (k2 :: rest)
         | some (.arr xs) => pathFits (.arr xs) (k2 :: rest)
         | _ => false)

end Json

/-- The two paths separate: at some common position the JavaScript
property keys differ. -/
def divergeB : List String → List String → Bool
  | p :: ps, q :: qs => if p = q then divergeB ps qs else true
  | _, _ => false

/-- App.js 648–658: the `setFormData` updater. -/
def updateFieldData (prev : Json) (path : List PathKey) (v : Json) : Json :=
  Json.setPath (.obj (Json.spread prev)) path v

/-- App.js 660–667: the `setFieldErrors` updater (`prev[key]` falsy — the
entry absent or its message empty — leaves the map untouched). -/
def updateFieldErrors (errs : List (String × Json)) (path : List PathKey) :
    List (String × Json) :=
  if Json.truthyOpt (Json.getKey errs (pathJoin path)) then
    Json.delKey errs (pathJoin path)
  else errs

/-- App.js 647–668: both state updates of `updateField`. -/
def updateField (formData : Json) (errs : List (String × Json))
    (path : List PathKey) (v : Json) : Json × List (String × Json) :=
  (updateFieldData formData path v, updateFieldErrors errs path)

example :
    updateFieldData (.obj [("a", .obj [("b", .str "old"), ("c", .str "keep")])])
        [.fld "a", .fld "b"] (.str "new")
      = .obj [("a", .obj [("b", .str "new"), ("c", .str "keep")])] := by decide

example :
    updateFieldData (.obj [("w", .arr [.str "x", .str "y"])])
        [.fld "w", .idx 1] (.str "z")
      = .obj [("w", .arr [.str "x", .str "z"])] := by decide

namespace Json

theorem readKey_writeKey_self {c : Json} {k : PathKey} {v : Json}
    (h : stepOk c k = true) : readKey (writeKey c k v) k = some v := by
  cases c with
  | obj kvs => simp [writeKey, readKey, getKey_setKey_self]
  | arr xs =>
      cases k with
      | fld s => simp [stepOk] at h
      | idx n =>
          simp only [stepOk, decide_eq_true_eq] at h
          simp only [writeKey, readKey, arraySet, if_pos h]
          exact List.getElem?_set_eq_of_lt v h
  | null => simp [stepOk] at h
  | bool b => simp [stepOk] at h
  | num n => simp [stepOk] at h
  | str s => simp [stepOk] at h

theorem readKey_writeKey_ne {c : Json} {k k' : PathKey} {v : Json}
    (h : stepOk c k = true) (hne : k'.asString ≠ k.asString) :
    readKey (writeKey c k v) k' = readKey c k' := by
  cases c with
  | obj kvs => simp [writeKey, readKey, getKey_setKey_ne _ _ hne]
  | arr xs =>
      cases k with
      | fld s => simp [stepOk] at h
      | idx n =>
          simp only [stepOk, decide_eq_true_eq] at h
          cases k' with
          | fld s => simp [writeKey, readKey]
          | idx m =>
              have hm : n ≠ m := fun he => hne (by rw [he])
              simp only [writeKey, readKey, arraySet, if_pos h]
              exact List.getElem?_set_ne hm
  | null => simp [stepOk] at h
  | bool b => simp [stepOk] at h
  | num n => simp [stepOk] at h
  | str s => simp [stepOk] at h

theorem childContainer_obj (kvs : List (String × Json)) :
    childContainer (some (.obj kvs)) = .obj kvs := by
  simp [childContainer, truthy, spread]

theorem childContainer_arr (xs : List Json) :
    childContainer (some (.arr xs)) = .arr xs := rfl

/-- Writing a fitting non-empty path makes the written value readable. -/
theorem getPath_setPath {p : List PathKey} :
    ∀ {c : Json} {v : Json}, pathFits c p = true → p ≠ [] →
      getPath (setPath c p v) p = some v := by
  induction p with
  | nil => intro c v _ hne; exact absurd rfl hne
  | cons k rest ih =>
      intro c v hf _
      cases rest with
      | nil =>
          rw [pathFits] at hf
          rw [setPath, getPath, readKey_writeKey_self hf]
          rfl
      | cons k2 rest2 =>
          rw [pathFits, Bool.and_eq_true] at hf
          obtain ⟨hstep, hrest⟩ := hf
          cases hr : readKey c k with
          | none => rw [hr] at hrest; exact absurd hrest (by simp)
          | some cc =>
              rw [hr] at hrest
              cases cc with
              | obj kvs =>
                  rw [setPath, getPath, hr, childContainer_obj,
                    readKey_writeKey_self hstep]
                  exact ih hrest (by simp)
              | arr xs =>
                  rw [setPath, getPath, hr, childContainer_arr,
                    readKey_writeKey_self hstep]
                  exact ih hrest (by simp)
              | null => exact absurd hrest (by simp)
              | bool b => exact absurd hrest (by simp)
              | num n => exact absurd hrest (by simp)
              | str s => exact absurd hrest (by simp)


end Json

theorem divergeB_left_ne_nil {ps qs : List String}
    (h : divergeB ps qs = true) : ps ≠ [] := by
  cases ps with
  | nil => cases qs <;> simp [divergeB] at h
  | cons p ps => simp

namespace Json

/-- Writing a fitting path changes nothing along a separating path. -/
theorem getPath_setPath_frame {p : List PathKey} :
    ∀ {c : Json} {q : List PathKey} {v : Json}, pathFits c p = true →
      divergeB (p.map PathKey.asString) (q.map PathKey.asString) = true →
      getPath (setPath c p v) q = getPath c q := by
  induction p with
  | nil => intro c q v _ hd; exact absurd (divergeB_left_ne_nil hd) (by simp)
  | cons k rest ih =>
      intro c q v hf hd
      cases q with
      | nil => cases rest <;> simp [divergeB] at hd
      | cons kq qrest =>
          simp only [List.map_cons, divergeB] at hd
          have hstep : stepOk c k = true := by
            cases rest with
            | nil => exact hf
            | cons k2 rest2 => rw [pathFits, Bool.and_eq_true] at hf; exact hf.1
          by_cases hk : kq.asString = k.asString
          · -- the JavaScript property keys agree here, so the separation
            -- happens deeper: the write descends into the shared child
            rw [if_pos hk.symm] at hd
            cases rest with
            | nil => exact absurd (divergeB_left_ne_nil hd) (by simp)
            | cons k2 rest2 =>
                rw [pathFits, Bool.and_eq_true] at hf
                obtain ⟨hstep2, hrest⟩ := hf
                cases c with
                | obj kvs =>
                    cases hr : readKey (Json.obj kvs) k with
                    | none => rw [hr] at hrest; exact absurd hrest (by simp)
                    | some cc =>
                        rw [hr] at hrest
                        have hq : readKey (Json.obj kvs) kq = some cc := by
                          rw [readKey, hk]
                          exact hr
                        rw [setPath, hr]
                        cases cc with
                        | obj kvs2 =>
                            rw [childContainer_obj, getPath, getPath]
                            have h1 : readKey (writeKey (Json.obj kvs) k
                                  (setPath (Json.obj kvs2) (k2 :: rest2) v)) kq
                                = some (setPath (Json.obj kvs2) (k2 :: rest2) v) := by
                              rw [writeKey, readKey, hk]
                              exact getKey_setKey_self _ _ _
                            rw [h1, hq]
                            exact ih hrest hd
                        | arr xs2 =>
                            rw [childContainer_arr, getPath, getPath]
                            have h1 : readKey (writeKey (Json.obj kvs) k
                                  (setPath (Json.arr xs2) (k2 :: rest2) v)) kq
                                = some (setPath (Json.arr xs2) (k2 :: rest2) v) := by
                              rw [writeKey, readKey, hk]
                              exact getKey_setKey_self _ _ _
                            rw [h1, hq]
                            exact ih hrest hd
                        | null => exact absurd hrest (by simp)
                        | bool b => exact absurd hrest (by simp)
                        | num n2 => exact absurd hrest (by simp)
                        | str s2 => exact absurd hrest (by simp)
                | arr xs =>
                    cases k with
                    | fld s => simp [stepOk] at hstep2
                    | idx n =>
                        simp only [stepOk, decide_eq_true_eq] at hstep2
                        cases kq with
                        | fld s =>
                            -- an array has no string-named property in this
                            -- model: both reads miss
                            rw [setPath]
                            rfl
                        | idx m =>
                            by_cases hnm : n = m
                            · subst hnm
                              cases hr : readKey (Json.arr xs) (PathKey.idx n) with
                              | none => rw [hr] at hrest; exact absurd hrest (by simp)
                              | some cc =>
                                  rw [hr] at hrest
                                  rw [setPath, hr]
                                  cases cc with
                                  | obj kvs2 =>
                                      rw [childContainer_obj, getPath, getPath]
                                      have h1 : readKey (writeKey (Json.arr xs) (PathKey.idx n)
                                            (setPath (Json.obj kvs2) (k2 :: rest2) v)) (PathKey.idx n)
                                          = some (setPath (Json.obj kvs2) (k2 :: rest2) v) :=
                                        readKey_writeKey_self (by simp [stepOk, hstep2])
                                      rw [h1, hr]
                                      exact ih hrest hd
                                  | arr xs2 =>
                                      rw [childContainer_arr, getPath, getPath]
                                      have h1 : readKey (writeKey (Json.arr xs) (PathKey.idx n)
                                            (setPath (Json.arr xs2) (k2 :: rest2) v)) (PathKey.idx n)
                                          = some (setPath (Json.arr xs2) (k2 :: rest2) v) :=
                                        readKey_writeKey_self (by simp [stepOk, hstep2])
                                      rw [h1, hr]
                                      exact ih hrest hd
                                  | null => exact absurd hrest (by simp)
                                  | bool b => exact absurd hrest (by simp)
                                  | num n2 => exact absurd hrest (by simp)
                                  | str s2 => exact absurd hrest (by simp)
                            · -- distinct indices: the updated slot is not read
                              rw [setPath, getPath, getPath]
                              have h1 : ∀ X, readKey (writeKey (Json.arr xs) (PathKey.idx n) X)
                                    (PathKey.idx m) = readKey (Json.arr xs) (PathKey.idx m) := by
                                intro X
                                rw [writeKey, readKey, readKey, arraySet, if_pos hstep2]
                                exact List.getElem?_set_ne hnm
                              rw [h1]
                | null => simp [stepOk] at hstep2
                | bool b => simp [stepOk] at hstep2
                | num n2 => simp [stepOk] at hstep2
                | str s2 => simp [stepOk] at hstep2
          · -- the property keys differ right here: the write misses `kq`
            have hX : ∃ X, setPath c (k :: rest) v = writeKey c k X := by
              cases rest with
              | nil => exact ⟨v, rfl⟩
              | cons k2 rest2 => exact ⟨_, rfl⟩
            obtain ⟨X, hXe⟩ := hX
            rw [hXe, getPath, getPath, readKey_writeKey_ne hstep hk]

end Json

/-- C10 (amended): for a path that addresses an entry of the form state
(every intermediate node a container, indices in range), `updateField`
writes exactly that entry — the path reads back the new value, and every
path that separates from it at some JavaScript property key reads what it
read before.  On the error map (unique keys, as JavaScript guarantees)
the dot-joined key is removed when its current entry is truthy, every
other key keeps its entry, and — contrary to the claim's `if present` —
a present entry with a falsy message is NOT removed: the map is returned
untouched whenever the entry is absent OR falsy. -/
theorem claim_C10_amended (kvs errs : List (String × Json))
    (path : List PathKey) (v : Json)
    (hfit : Json.pathFits (Json.obj kvs) path = true) (hne : path ≠ [])
    (hnd : (errs.map Prod.fst).Nodup) :
    Json.getPath ((updateField (Json.obj kvs) errs path v).1) path = some v
    ∧ (∀ q : List PathKey,
        divergeB (path.map PathKey.asString) (q.map PathKey.asString) = true →
        Json.getPath ((updateField (Json.obj kvs) errs path v).1) q
          = Json.getPath (Json.obj kvs) q)
    ∧ (Json.truthyOpt (Json.getKey errs (pathJoin path)) = true →
        Json.getKey ((updateField (Json.obj kvs) errs path v).2) (pathJoin path)
          = none)
    ∧ (∀ k2 : String, k2 ≠ pathJoin path →
        Json.getKey ((updateField (Json.obj kvs) errs path v).2) k2
          = Json.getKey errs k2)
    ∧ (Json.truthyOpt (Json.getKey errs (pathJoin path)) = false →
        (updateField (Json.obj kvs) errs path v).2 = errs) := by
  refine ⟨?_, ?_, ?_, ?_, ?_⟩
  · exact Json.getPath_setPath hfit hne
  · intro q hq
    exact Json.getPath_setPath_frame hfit hq
  · intro ht
    show Json.getKey (updateFieldErrors errs path) (pathJoin path) = none
    rw [updateFieldErrors, if_pos ht]
    exact Json.getKey_delKey_self_of_nodup errs _ hnd
  · intro k2 hk2
    show Json.getKey (updateFieldErrors errs path) k2 = Json.getKey errs k2
    rw [updateFieldErrors]
    by_cases ht : Json.truthyOpt (Json.getKey errs (pathJoin path)) = true
    · rw [if_pos ht]
      exact Json.getKey_delKey_ne errs hk2
    · rw [if_neg ht]
  · intro ht
    show updateFieldErrors errs path = errs
    rw [updateFieldErrors, ht]
    rfl

/-- Witness for C10 at a concrete form state: writing `"new"` at
`a.b` makes `a.b` read `"new"`, leaves the sibling `a.c` as it was,
removes the truthy error entry `a.b` and keeps the unrelated entry
`z`. -/
theorem claim_C10_witness :
    Json.getPath ((updateField
          (Json.obj [("a", Json.obj [("b", Json.str "old"), ("c", Json.str "keep")])])
          [("a.b", Json.str "required"), ("z", Json.str "other")]
          [PathKey.fld "a", PathKey.fld "b"] (Json.str "new")).1)
        [PathKey.fld "a", PathKey.fld "b"] = some (Json.str "new")
    ∧ Json.getPath ((updateField
          (Json.obj [("a", Json.obj [("b", Json.str "old"), ("c", Json.str "keep")])])
          [("a.b", Json.str "required"), ("z", Json.str "other")]
          [PathKey.fld "a", PathKey.fld "b"] (Json.str "new")).1)
        [PathKey.fld "a", PathKey.fld "c"]
      = Json.getPath (Json.obj [("a", Json.obj [("b", Json.str "old"), ("c", Json.str "keep")])])
          [PathKey.fld "a", PathKey.fld "c"]
    ∧ Json.getKey ((updateField
          (Json.obj [("a", Json.obj [("b", Json.str "old"), ("c", Json.str "keep")])])
          [("a.b", Json.str "required"), ("z", Json.str "other")]
          [PathKey.fld "a", PathKey.fld "b"] (Json.str "new")).2) "a.b" = none
    ∧ Json.getKey ((updateField
          (Json.obj [("a", Json.obj [("b", Json.str "old"), ("c", Json.str "keep")])])
          [("a.b", Json.str "required"), ("z", Json.str "other")]
          [PathKey.fld "a", PathKey.fld "b"] (Json.str "new")).2) "z"
      = Json.getKey [("a.b", Json.str "required"), ("z", Json.str "other")] "z" := by
  have h := claim_C10_amended
    [("a", Json.obj [("b", Json.str "old"), ("c", Json.str "keep")])]
    [("a.b", Json.str "required"), ("z", Json.str "other")]
    [PathKey.fld "a", PathKey.fld "b"] (Json.str "new")
    (by decide) (by decide) (by decide)
  exact ⟨h.1, h.2.1 [PathKey.fld "a", PathKey.fld "c"] (by decide),
    h.2.2.1 (by decide), h.2.2.2.1 "z" (by decide)⟩

/-- C10 counterexample: the claim's unconditional `removes the fieldErrors
entry whose key is the dot-joined path (if present)` fails — here the
entry `a.b` is present but its message is the falsy `""`, and
`updateField` leaves the error map untouched instead of removing the
entry. -/
theorem claim_C10_counterexample :
    Json.getKey [("a.b", Json.str "")] "a.b" = some (Json.str "")
    ∧ (updateField (Json.obj [("a", Json.obj [("b", Json.str "old")])])
          [("a.b", Json.str "")] [PathKey.fld "a", PathKey.fld "b"]
          (Json.str "new")).2
        = [("a.b", Json.str "")] := by
  exact ⟨by decide, by decide⟩

/-- C9: normalization operates on a deep copy of the form state — the
copy (modelling `JSON.parse(JSON.stringify(data))`) is rebuilt node by
node and is structurally identical to the input, so the pipeline's
rewriting happens on a fresh tree and the caller's value is what it was:
`buildPayload` coincides with the pure pipeline applied to the argument
itself. -/
theorem claim_C9 (x : Json) :
    deepCopy x = x ∧ buildPayload x = normalizeSteps x :=
  ⟨deepCopy_eq x, buildPayload_eq_normalizeSteps x⟩
